import Mathlib

/-!
Verification of the PyreRing test harness core: suite resolution
(`lib/scanscripts.py`, `lib/pyreringutil.py`), subprocess execution
(`lib/filesystemhandlerextend.py`) and result classification / run
sequencing (`lib/baserunner.py`), shallowly embedded in Lean.
-/

namespace PyreRing

/-! ### Character and string helpers (ASCII casing, strip, split) -/

/-- ASCII lower-casing of one character, as used for the case-insensitive
regex patterns `warn` / `error` / `fatal` (compiled with `re.I`). -/
def lowerChar (c : Char) : Char :=
  if 'A' ≤ c ∧ c ≤ 'Z' then Char.ofNat (c.toNat + 32) else c

/-- ASCII upper-casing of one character (Python `str.upper` on ASCII keys). -/
def upperChar (c : Char) : Char :=
  if 'a' ≤ c ∧ c ≤ 'z' then Char.ofNat (c.toNat - 32) else c

/-- Python whitespace characters recognised by `str.strip()`. -/
def isSpaceChar (c : Char) : Bool :=
  c == ' ' || c == '\t' || c == '\n' || c == '\r'

/-- `str.strip()` on a character list. -/
def stripChars (l : List Char) : List Char :=
  ((l.dropWhile isSpaceChar).reverse.dropWhile isSpaceChar).reverse

/-- `str.strip(c)` for one specific character (strips every leading and
trailing occurrence of `c`). -/
def stripCharAll (l : List Char) (c : Char) : List Char :=
  ((l.dropWhile (fun x => x == c)).reverse.dropWhile (fun x => x == c)).reverse

/-- `str.strip()` lifted to `String`. -/
def stripStr (s : String) : String :=
  String.mk (stripChars s.toList)

/-- `s.startswith(pre)`. -/
def startsWithStr (s pre : String) : Bool :=
  pre.toList.isPrefixOf s.toList

/-- Boolean infix test on character lists. -/
def infixOfB : List Char → List Char → Bool
  | needle, [] => needle.isEmpty
  | needle, h :: t => needle.isPrefixOf (h :: t) || infixOfB needle t

/-- Substring containment, `needle in hay` in Python. -/
def strContains (hay needle : String) : Bool :=
  infixOfB needle.toList hay.toList

/-- Case-insensitive pattern search: `re.compile(pat, re.I).search(line)`
for a plain-text pattern. -/
def matchesCI (pat line : String) : Bool :=
  infixOfB (pat.toList.map lowerChar) (line.toList.map lowerChar)

/-- Python `line.split(c)` (all splits). -/
def splitChar : List Char → Char → List (List Char)
  | [], _ => [[]]
  | ch :: rest, c =>
    let r := splitChar rest c
    if ch == c then [] :: r
    else
      match r with
      | [] => [[ch]]
      | h :: t => (ch :: h) :: t

/-- Python `line.split(c, 1)`: split at the first occurrence only.
Only used on input known to contain the separator. -/
def splitFirst : List Char → Char → List Char × List Char
  | [], _ => ([], [])
  | ch :: rest, c =>
    if ch == c then ([], rest)
    else
      let p := splitFirst rest c
      (ch :: p.1, p.2)

/-- Python `int(value)`: optional surrounding whitespace, optional sign,
then one or more decimal digits; anything else fails. -/
def pyInt (l : List Char) : Option Int :=
  let l' := stripChars l
  let digitsVal (ds : List Char) : Option Nat :=
    if ds ≠ [] ∧ ds.all (fun c => c.isDigit) then
      Option.some (ds.foldl (fun n c => n * 10 + (c.toNat - 48)) 0)
    else Option.none
  match l' with
  | '+' :: ds => (digitsVal ds).map (fun n => (n : Int))
  | '-' :: ds => (digitsVal ds).map (fun n => -(n : Int))
  | ds => (digitsVal ds).map (fun n => (n : Int))

/-! ### Result classification: `BaseRunner._CheckAndReportResult`
(`lib/baserunner.py:368-418`).

The runner receives `None` (modelled `Option.none`) for a timed-out
script, otherwise the integer exit status.  The configured
`EXPECTED_RETURN` and `ERROR` values are compared modulo 256 (Python `%`
on a positive modulus agrees with `Int.emod`). -/

inductive Classification
  | PASS
  | FAIL
  | TIMEOUT
  | ERROR
deriving DecidableEq, Repr

/-- `BaseRunner._CheckAndReportResult`, reduced to the classification it
reports: the counter/reporter side effects carry exactly this value. -/
def checkAndReportResult (expectedReturn errorCode : Int)
    (result : Option Int) : Classification :=
  match result with
  | Option.none => Classification.TIMEOUT
  | Option.some r =>
    if r = expectedReturn % 256 then Classification.PASS
    else if r = errorCode % 256 then Classification.ERROR
    else Classification.FAIL

/-! ### Output scanning: `BaseRunner._CommandStreamer`
(`lib/baserunner.py:420-477`).

After the subprocess finishes, every output line is examined.  While the
running return value is falsy (`None` from a timeout or `0`), the line is
searched for one of the configured `FATAL_STRING` substrings; a hit
overrides the return value to `-1` and emits an extra message.  Only when
the running return value is truthy does the line get matched against the
case-insensitive `fatal` / `error` / `warn` patterns, first hit only. -/

/-- The `CATCHING_LIST` of `lib/baserunner.py:37-40`, in priority order. -/
def catchingList : List String := ["fatal", "error", "warn"]

/-- Extra messages sent to the reporter by `_CommandStreamer`; `caught`
records which pattern of `catchingList` fired the inner `break`. -/
inductive ExtraMsg
  | fatalString (cmd line : String)
  | caught (cmd pat line : String)
deriving DecidableEq, Repr

/-- Python truthiness test `not ret` for the running return value. -/
def retFalsy : Option Int → Bool
  | Option.none => true
  | Option.some n => n == 0

/-- First configured fatal string contained in the line
(`if fatal_string and fatal_string in line`). -/
def findFatal (fatalStrings : List String) (line : String) : Option String :=
  fatalStrings.find? (fun fs => !fs.toList.isEmpty && strContains line fs)

/-- First pattern of `catchingList` matching the line. -/
def findCatch (line : String) : Option String :=
  catchingList.find? (fun pat => matchesCI pat line)

/-- One iteration of the `for line in message.splitlines()` loop of
`_CommandStreamer`, acting on the running return value and the extra
messages emitted so far. -/
def processLine (fatalStrings : List String) (cmd : String)
    (st : Option Int × List ExtraMsg) (line : String) :
    Option Int × List ExtraMsg :=
  if retFalsy st.1 then
    match findFatal fatalStrings line with
    | Option.some _ => (Option.some (-1), st.2 ++ [ExtraMsg.fatalString cmd line])
    | Option.none => (st.1, st.2)
  else
    match findCatch line with
    | Option.some pat => (st.1, st.2 ++ [ExtraMsg.caught cmd pat line])
    | Option.none => (st.1, st.2)

/-- The whole scanning loop of `_CommandStreamer`, from the return value
delivered by `RunCommandToLoggerWithTimeout` and the captured output
lines. -/
def commandStreamerScan (fatalStrings : List String) (cmd : String)
    (ret : Option Int) (lines : List String) : Option Int × List ExtraMsg :=
  lines.foldl (processLine fatalStrings cmd) (ret, [])

/-! ### Subprocess execution with timeout:
`FileSystemHandlerExtend.RunCommandToLoggerWithTimeout`
(`lib/filesystemhandlerextend.py:113-161`).

The child is started with `subprocess.Popen(command, shell=True,
stdout=PIPE, stderr=STDOUT)` — no `preexec_fn`, so the child stays in the
parent's process group.  The parent polls once a second up to the
timeout; if the deadline passes while the child is alive it issues
`os.kill(proc.pid, signal.SIGKILL)` and returns `None` as the return
code.  The child is modelled by the tick at which `proc.poll()` first
reports an exit status, and its exit code. -/

/-- The keyword arguments of the `subprocess.Popen` call at
`lib/filesystemhandlerextend.py:132-133`. -/
structure PopenSpec where
  shell : Bool
  stdoutPipe : Bool
  stderrToStdout : Bool
  /-- whether a `preexec_fn`/`setsid` puts the child in its own process
  group; the call passes no such option. -/
  preexecSetsid : Bool
deriving DecidableEq, Repr

/-- The launch used by `RunCommandToLoggerWithTimeout`. -/
def popenOfRunCommand : PopenSpec :=
  { shell := true
    stdoutPipe := true
    stderrToStdout := true
    preexecSetsid := false }

inductive Sig
  | SIGKILL
  | SIGTERM
deriving DecidableEq, Repr

inductive KillTarget
  | childPid
  | childProcessGroup
deriving DecidableEq, Repr

/-- An `os.kill`-level action issued by the runner. -/
structure KillAct where
  target : KillTarget
  sig : Sig
deriving DecidableEq, Repr

/-- Abstract child process: `exitAt` is the first polling tick at which
`proc.poll()` returns an exit status (`Option.none` if the child outlives
every tick considered), `code` the exit status it then reports. -/
structure ChildProc where
  exitAt : Option Nat
  code : Int
deriving DecidableEq, Repr

/-- `proc.poll()` observed at tick `t`. -/
def pollAt (child : ChildProc) (t : Nat) : Option Int :=
  match child.exitAt with
  | Option.none => Option.none
  | Option.some e => if e ≤ t then Option.some child.code else Option.none

/-- The `while start_time < timeout and proc.poll() is None` loop,
returning the final value of `start_time`; `remaining` is
`timeout - start_time`. -/
def finalTickGo (child : ChildProc) : Nat → Nat → Nat
  | 0, t => t
  | remaining + 1, t =>
    match pollAt child t with
    | Option.none => finalTickGo child remaining (t + 1)
    | Option.some _ => t

def finalTick (child : ChildProc) (timeout : Nat) : Nat :=
  finalTickGo child timeout 0

/-- `RunCommandToLoggerWithTimeout`, reduced to the returned code and the
kill actions issued.  On normal exit the real exit code is returned with
no kill; on deadline expiry `SIGKILL` goes to the child pid (not to a
process group) and `None` is returned. -/
def runCommandToLoggerWithTimeout (timeout : Nat) (child : ChildProc) :
    Option Int × List KillAct :=
  let t := finalTick child timeout
  match pollAt child t with
  | Option.some _ => (Option.some child.code, [])
  | Option.none =>
    (Option.none, [{ target := KillTarget.childPid, sig := Sig.SIGKILL }])

/-! ### Suite resolution: `ScanScripts` (`lib/scanscripts.py`).

A suite file is modelled by the four sets `_ReadOneSuiteFile` extracts
from it (include/exclude test cases, include/exclude nested suites); the
filesystem is an association list from suite path to that content.
`_ReadSuiteFiles` (`lib/scanscripts.py:321-376`) first subtracts the
exclude sets from the include sets, then recurses into the surviving
include suites (unioning their results in) and into the exclude suites
(subtracting their results), guarding each recursion with the
include/exclude visited bookkeeping.  Python-set values are lists whose
iteration order stands for the set's iteration order. -/

/-- Output of `ScanScripts._ReadOneSuiteFile` for one suite file. -/
structure SuiteContent where
  incTc : List String
  incSuites : List String
  excTc : List String
  excSuites : List String
deriving DecidableEq, Repr

abbrev FS := List (String × SuiteContent)

def fsLookup : FS → String → Option SuiteContent
  | [], _ => Option.none
  | (q, c) :: rest, p => if q = p then Option.some c else fsLookup rest p

/-- The visit bookkeeping of `ScanScripts.__init__`
(`lib/scanscripts.py:108-120`): an ordered list and a membership set for
each of the include and exclude namespaces. -/
structure ScanState where
  incList : List String
  excList : List String
  incSet : List String
  excSet : List String
deriving DecidableEq, Repr

def initState : ScanState :=
  { incList := [], excList := [], incSet := [], excSet := [] }

/-- Python `set.add`. -/
def addElem (s : List String) (x : String) : List String :=
  if x ∈ s then s else s ++ [x]

/-- Python set difference `a - b` on list-represented sets. -/
def setDiff (a b : List String) : List String :=
  a.filter (fun x => !b.contains x)

/-- Python set union `a | b` on list-represented sets. -/
def setUnion (a b : List String) : List String :=
  a ++ b.filter (fun x => !a.contains x)

inductive ScanErr
  /-- `include loop found: <visited> at <suite>` -/
  | includeLoop (visited : List String) (suite : String)
  /-- `exclude loop found: <visited> at <suite>` -/
  | excludeLoop (visited : List String) (suite : String)
  /-- `IOError` from opening a missing suite file. -/
  | ioErr (path : String)
  | outOfFuel
deriving DecidableEq, Repr

mutual

/-- `ScanScripts._ReadSuiteFiles` (`lib/scanscripts.py:321-376`), with a
fuel parameter standing in for the call stack. -/
def readSuiteFiles (fs : FS) : Nat → ScanState → String →
    Except ScanErr (List String × ScanState)
  | 0, _, _ => Except.error ScanErr.outOfFuel
  | fuel + 1, st, fullPath =>
    match fsLookup fs fullPath with
    | Option.none => Except.error (ScanErr.ioErr fullPath)
    | Option.some c =>
      let incTc := setDiff c.incTc.dedup c.excTc.dedup
      let incSuites := setDiff c.incSuites.dedup c.excSuites.dedup
      let excSuites := c.excSuites.dedup
      match processIncludes fs fuel st incSuites incTc with
      | Except.error e => Except.error e
      | Except.ok (acc, st1) => processExcludes fs fuel st1 excSuites acc
termination_by fuel st p => (fuel, 0)

/-- The `for one_suite in include_suite_set` loop of `_ReadSuiteFiles`. -/
def processIncludes (fs : FS) : Nat → ScanState → List String →
    List String → Except ScanErr (List String × ScanState)
  | _, st, [], acc => Except.ok (acc, st)
  | fuel, st, s :: rest, acc =>
    if s ∈ st.incSet then Except.error (ScanErr.includeLoop st.incList s)
    else
      let st' := { st with incList := st.incList ++ [s],
                           incSet := addElem st.incSet s }
      match readSuiteFiles fs fuel st' s with
      | Except.error e => Except.error e
      | Except.ok (extra, st2) =>
        processIncludes fs fuel st2 rest (setUnion acc extra)
termination_by fuel st l acc => (fuel, l.length + 1)

/-- The `for one_suite in exclude_suite_set` loop of `_ReadSuiteFiles`. -/
def processExcludes (fs : FS) : Nat → ScanState → List String →
    List String → Except ScanErr (List String × ScanState)
  | _, st, [], acc => Except.ok (acc, st)
  | fuel, st, s :: rest, acc =>
    if s ∈ st.excSet then Except.error (ScanErr.excludeLoop st.excList s)
    else
      let st' := { st with excList := st.excList ++ [s],
                           excSet := addElem st.excSet s }
      match readSuiteFiles fs fuel st' s with
      | Except.error e => Except.error e
      | Except.ok (extra, st2) =>
        processExcludes fs fuel st2 rest (setDiff acc extra)
termination_by fuel st l acc => (fuel, l.length + 1)

end

/-- The re-seeding done by `ScanScripts.BaseScan` before parsing a suite
file (`lib/scanscripts.py:190-195`): the include visited *list* is reset
to the top suite, but its *set* only receives an extra element; the
exclude visited list is reset while line 195 assigns the fresh set to a
misspelled attribute (`excluding_suite_visisted_set`), leaving the real
exclude visited set untouched. -/
def baseScanSeed (st : ScanState) (fullPath : String) : ScanState :=
  { incList := [fullPath]
    incSet := addElem st.incSet fullPath
    excList := []
    excSet := st.excSet }

/-- The suite-file branch of `ScanScripts.BaseScan`
(`lib/scanscripts.py:188-200`), at the granularity of the visit state and
the resolved test-case set. -/
def baseScanSuite (fs : FS) (fuel : Nat) (st : ScanState)
    (fullPath : String) : Except ScanErr (List String × ScanState) :=
  readSuiteFiles fs fuel (baseScanSeed st fullPath) fullPath

/-! Reachability along suite references, for stating the cycle claim. -/

inductive EdgeKind
  | inc
  | exc
deriving DecidableEq, Repr

/-- The nested suites `_ReadSuiteFiles` recurses into from `a`: for the
include namespace the include suites surviving exclusion, for the exclude
namespace the exclude suites. -/
def effSuites (fs : FS) (k : EdgeKind) (a : String) : List String :=
  match fsLookup fs a with
  | Option.none => []
  | Option.some c =>
    match k with
    | EdgeKind.inc => setDiff c.incSuites.dedup c.excSuites.dedup
    | EdgeKind.exc => c.excSuites.dedup

def edge (fs : FS) (k : EdgeKind) (a b : String) : Prop :=
  b ∈ effSuites fs k a

/-- A chain of suite references of either kind. -/
inductive Walk (fs : FS) : String → String → Prop
  | refl (a : String) : Walk fs a a
  | step {a b c : String} {k : EdgeKind} :
      edge fs k a b → Walk fs b c → Walk fs a c

/-- The visited set of the namespace a given edge kind is checked
against. -/
def kindSet (st : ScanState) : EdgeKind → List String
  | EdgeKind.inc => st.incSet
  | EdgeKind.exc => st.excSet

/-- Suite paths present in the modelled filesystem. -/
def domList (fs : FS) : List String :=
  (fs.map Prod.fst).dedup

/-- Every nested suite mentioned anywhere exists in the filesystem — true
of the code's configurations, where nested suites come from `glob`. -/
def wfFS (fs : FS) : Prop :=
  ∀ pc ∈ fs,
    (∀ s ∈ (Prod.snd pc).incSuites, s ∈ domList fs) ∧
    (∀ s ∈ (Prod.snd pc).excSuites, s ∈ domList fs)

/-- Pointwise growth of the visit sets. -/
def stLE (s t : ScanState) : Prop :=
  (∀ x, x ∈ s.incSet → x ∈ t.incSet) ∧ (∀ x, x ∈ s.excSet → x ∈ t.excSet)

/-- The outcomes the resolver can legitimately end in: a resolved set or
a cycle error — never fuel exhaustion (non-termination) and, on a
well-formed filesystem, never a missing-file error. -/
def terminatesProperly : Except ScanErr (List String × ScanState) → Prop
  | Except.ok _ => True
  | Except.error (ScanErr.includeLoop _ _) => True
  | Except.error (ScanErr.excludeLoop _ _) => True
  | Except.error (ScanErr.ioErr _) => False
  | Except.error ScanErr.outOfFuel => False

/-- The scan failed with one of the two cycle errors. -/
def isLoopError : Except ScanErr (List String × ScanState) → Prop
  | Except.error (ScanErr.includeLoop _ _) => True
  | Except.error (ScanErr.excludeLoop _ _) => True
  | _ => False

/-- Count of filesystem suites not yet visited in each namespace: the
termination measure of the recursion. -/
def measureState (fs : FS) (st : ScanState) : Nat :=
  (setDiff (domList fs) st.incSet).length + (setDiff (domList fs) st.excSet).length

/-! ### Run-configuration parsing: `PRConfigParser`
(`lib/pyreringutil.py:324-568`).

A config dictionary maps directive keys to Python values (int, bool,
string or `None`); it is represented as an association list with unique
keys, updated in place like a Python dict. -/

inductive CfgVal
  | intVal (n : Int)
  | boolVal (b : Bool)
  | strVal (s : String)
  | nullVal
deriving DecidableEq, Repr

abbrev Dict := List (String × CfgVal)

/-- Python `d[k] = v`. -/
def dset : Dict → String → CfgVal → Dict
  | [], k, v => [(k, v)]
  | (k', v') :: rest, k, v =>
    if k' = k then (k', v) :: rest else (k', v') :: dset rest k v

/-- Python `d.update(u)`. -/
def dictUpdate (d u : Dict) : Dict :=
  u.foldl (fun acc kv => dset acc kv.1 kv.2) d

/-- Python `d.get(k)` / `d[k]`. -/
def dget : Dict → String → Option CfgVal
  | [], _ => Option.none
  | (k', v) :: rest, k => if k' = k then Option.some v else dget rest k

/-- Python `d.pop(k)`: remove the binding of `k`. -/
def dpop : Dict → String → Dict
  | [], _ => []
  | kv :: rest, k => if kv.1 = k then dpop rest k else kv :: dpop rest k

/-- `PRConfigParser.Default` (`lib/pyreringutil.py:369-400`). -/
def defaultConfig : Dict :=
  [("TEST_SCRIPT", CfgVal.strVal ""),
   ("TIMEOUT", CfgVal.intVal 600),
   ("ROOT_ACCESS", CfgVal.boolVal false),
   ("EXPECTED_RETURN", CfgVal.intVal 0),
   ("CONCURRENT", CfgVal.boolVal true),
   ("NFS", CfgVal.boolVal false),
   ("VERSION", CfgVal.strVal "1.0"),
   ("SIZE", CfgVal.strVal "SMALL"),
   ("COMMENTS", CfgVal.nullVal),
   ("FLAGS", CfgVal.nullVal),
   ("ERROR", CfgVal.intVal 255)]

inductive PyErr
  | valueError
  | missingEndSign
  | ioReadError (path : String)
deriving DecidableEq, Repr

def START_SIGN : String := "# PR_START"
def END_SIGN : String := "# PR_END"
def BINARY_SUFFIXES : List String := [".par"]
def intKeys : List String := ["TIMEOUT", "EXPECTED_RETURN", "ERROR"]
def boolKeys : List String := ["ROOT_ACCESS", "CONCURRENT", "NFS"]

/-- `PRConfigParser._ParseLine` (`lib/pyreringutil.py:402-442`).  A line
not starting with `#`, starting with `##`, or not splitting into exactly
two parts on `=` yields an empty mapping; otherwise the single key/value
pair is parsed, with `ValueError` for bad integers and booleans. -/
def parseLine (line : String) : Except PyErr Dict :=
  let l := line.toList
  if !startsWithStr line "#" || startsWithStr line "##" ||
      !((splitChar l '=').length = 2 : Bool) then
    Except.ok []
  else
    let p := splitFirst (l.drop 1) '='
    let key := String.mk ((stripChars p.1).map upperChar)
    let value := String.mk
      (stripCharAll (stripCharAll (stripChars p.2) (Char.ofNat 34)) (Char.ofNat 39))
    if key ∈ intKeys then
      match pyInt value.toList with
      | Option.some n => Except.ok [(key, CfgVal.intVal n)]
      | Option.none => Except.error PyErr.valueError
    else if key ∈ boolKeys then
      if startsWithStr (String.mk (value.toList.map lowerChar)) "false" then
        Except.ok [(key, CfgVal.boolVal false)]
      else if startsWithStr (String.mk (value.toList.map lowerChar)) "true" then
        Except.ok [(key, CfgVal.boolVal true)]
      else Except.error PyErr.valueError
    else Except.ok [(key, CfgVal.strVal value)]

/-- The inner `for j in range(i+1, len(lines))` loop of
`PRConfigParser.ParseList`: reads until `END_SIGN`, feeding `#`-lines to
`_ParseLine`; falling off the end is the ill-formatted case. -/
def parseListAfterStart : List String → Dict → Except PyErr Dict
  | [], _ => Except.error PyErr.missingEndSign
  | l :: rest, acc =>
    let cl := stripStr l
    if startsWithStr cl END_SIGN then Except.ok acc
    else if startsWithStr cl "#" then
      match parseLine cl with
      | Except.error e => Except.error e
      | Except.ok d => parseListAfterStart rest (dictUpdate acc d)
    else parseListAfterStart rest acc

/-- The outer loop of `ParseList`: find the first `START_SIGN` line; no
marker at all yields the empty config. -/
def parseListFindStart : List String → Except PyErr Dict
  | [] => Except.ok []
  | l :: rest =>
    if startsWithStr (stripStr l) START_SIGN then parseListAfterStart rest []
    else parseListFindStart rest

/-- `PRConfigParser.ParseList` (`lib/pyreringutil.py:444-487`). -/
def parseList (lines : List String) (populateDefault : Bool) :
    Except PyErr Dict :=
  match parseListFindStart lines with
  | Except.error e => Except.error e
  | Except.ok cfg =>
    Except.ok (if populateDefault then dictUpdate defaultConfig cfg else cfg)

/-- `os.path.splitext(p)[1]`: the extension from the last dot, if any. -/
def extOf (p : String) : String :=
  let rev := p.toList.reverse
  let pre := rev.takeWhile (fun c => !(c == '.'))
  if pre.length = rev.length then ""
  else String.mk ('.' :: pre.reverse)

/-- File contents by path, one list of lines per file. -/
abbrev FilesMap := List (String × List String)

def filesLookup : FilesMap → String → Option (List String)
  | [], _ => Option.none
  | (q, c) :: rest, p => if q = p then Option.some c else filesLookup rest p

/-- `PRConfigParser.ParseFile` (`lib/pyreringutil.py:489-524`): binary
(`.par`) files get pure defaults; otherwise the content is parsed and,
in every case, `TEST_SCRIPT` is overwritten with the file's own path. -/
def parseFile (files : FilesMap) (anyfile : String) (populateDefault : Bool) :
    Except PyErr Dict :=
  if extOf anyfile ∈ BINARY_SUFFIXES then
    Except.ok (dset defaultConfig "TEST_SCRIPT" (CfgVal.strVal anyfile))
  else
    match filesLookup files anyfile with
    | Option.none => Except.error (PyErr.ioReadError anyfile)
    | Option.some lines =>
      match parseList lines populateDefault with
      | Except.error e => Except.error e
      | Except.ok cfg =>
        Except.ok (dset cfg "TEST_SCRIPT" (CfgVal.strVal anyfile))

/-- `PRConfigParser.ParseFiles` (`lib/pyreringutil.py:526-541`). -/
def parseFiles (files : FilesMap) : List String → Bool →
    Except PyErr (List Dict)
  | [], _ => Except.ok []
  | f :: rest, pd =>
    match parseFile files f pd with
    | Except.error e => Except.error e
    | Except.ok c =>
      match parseFiles files rest pd with
      | Except.error e => Except.error e
      | Except.ok cs => Except.ok (c :: cs)

/-- `PRConfigParser.ParseSuite` (`lib/pyreringutil.py:543-568`): the
suite file's own (non-recursive) directive block, minus `TEST_SCRIPT`,
is written over each individual script's config. -/
def parseSuite (files : FilesMap) (suiteFile : String)
    (fileList : List String) (populateDefault : Bool) :
    Except PyErr (List Dict) :=
  match parseFile files suiteFile false with
  | Except.error e => Except.error e
  | Except.ok sc =>
    let suiteConfig := dpop sc "TEST_SCRIPT"
    match parseFiles files fileList populateDefault with
    | Except.error e => Except.error e
    | Except.ok configs =>
      Except.ok (configs.map (fun c => dictUpdate c suiteConfig))

/-! ### Run sequencing: `BaseRunner._Run` / `_RunSuites`
(`lib/baserunner.py:124-150,169-206`).

Suite execution is abstracted by an oracle giving, for each suite name,
either `Option.none` (the scanner raised `ScanScriptsError`, the name is
skipped) or the list of classifications of its scripts.  `_RunSingleSuite`
reports a failed suite iff some script is not a PASS; `_RunSuites`
returns 1 as soon as a failed suite's name is one of the well-known setup
names.  The model also returns the trace of suite names that actually
ran (had scripts executed). -/

def SETUP_SUITE : List String :=
  ["SETUP.sh", "SETUP.py", "SETUP.par", "SETUP.suite"]

def TEARDOWN_SUITE : List String :=
  ["TEARDOWN.sh", "TEARDOWN.py", "TEARDOWN.par", "TEARDOWN.suite"]

/-- `suite_fail_flag` of `_RunSingleSuite`: true iff any script of the
suite is classified other than PASS. -/
def suiteFailFlag (outs : List Classification) : Bool :=
  outs.any (fun c => !(c = Classification.PASS : Bool))

/-- `BaseRunner._RunSuites`: returns the 0/1 setup-failure code and the
names of the suites that ran. -/
def runSuites (oracle : String → Option (List Classification)) :
    List String → Nat × List String
  | [] => (0, [])
  | t :: rest =>
    match oracle t with
    | Option.none => runSuites oracle rest
    | Option.some outs =>
      if suiteFailFlag outs && SETUP_SUITE.contains t then (1, [t])
      else
        let r := runSuites oracle rest
        (r.1, t :: r.2)

/-- `BaseRunner._Run`: setup phase (unless skipped), then the main
suites, then teardown (skipped by the same flag).  Returns `some 1` for
the setup-failure early exit, `none` otherwise, with the trace of suites
that ran. -/
def runModel (oracle : String → Option (List Classification))
    (skipSetup : Bool) (suiteList : List String) : Option Nat × List String :=
  if skipSetup then
    let m := runSuites oracle suiteList
    (Option.none, m.2)
  else
    let s := runSuites oracle SETUP_SUITE
    if s.1 = 1 then (Option.some 1, s.2)
    else
      let m := runSuites oracle suiteList
      let t := runSuites oracle TEARDOWN_SUITE
      (Option.none, s.2 ++ m.2 ++ t.2)

/-! ### Concrete instances used in closed statements -/

/-- A three-suite filesystem: `a.suite` and `c.suite` both include
`b.suite`; there is no cycle anywhere. -/
def fsC9 : FS :=
  [("a.suite", { incTc := [], incSuites := ["b.suite"], excTc := [], excSuites := [] }),
   ("b.suite", { incTc := ["t.sh"], incSuites := [], excTc := [], excSuites := [] }),
   ("c.suite", { incTc := [], incSuites := ["b.suite"], excTc := [], excSuites := [] })]

/-- A suite file that includes itself. -/
def fsSelf : FS :=
  [("a.suite", { incTc := [], incSuites := ["a.suite"], excTc := [], excSuites := [] })]

/-- The visit state a successful scan left behind (used to model calling
`BaseScan` again on the same `ScanScripts` instance). -/
def stateAfter (r : Except ScanErr (List String × ScanState)) : ScanState :=
  match r with
  | Except.ok p => p.2
  | Except.error _ => initState

def c9FirstCall : Except ScanErr (List String × ScanState) :=
  baseScanSuite fsC9 10 initState "a.suite"

def c9SecondCall : Except ScanErr (List String × ScanState) :=
  baseScanSuite fsC9 10 (stateAfter c9FirstCall) "c.suite"

def c9FreshCall : Except ScanErr (List String × ScanState) :=
  baseScanSuite fsC9 10 initState "c.suite"

/-- A suite file with a directive block and one script whose own block
sets `TIMEOUT`, `TEST_SCRIPT` and `EXPECTED_RETURN`. -/
def filesC7 : FilesMap :=
  [("t.suite", ["# PR_START", "# TIMEOUT = 99", "# PR_END", "s.sh"]),
   ("s.sh", ["#!/bin/sh", "# PR_START", "# TIMEOUT = 5", "# TEST_SCRIPT = junk",
             "# EXPECTED_RETURN = 2", "# PR_END", "echo"])]

def scC7 : Dict :=
  [("TIMEOUT", CfgVal.intVal 99), ("TEST_SCRIPT", CfgVal.strVal "t.suite")]

/-- Suite outcomes for the C8 witness: `SETUP.sh` has one failing
script, the main suite `m.suite` would pass, everything else is
unresolvable. -/
def oracleC8 : String → Option (List Classification) :=
  fun n =>
    if n = "SETUP.sh" then Option.some [Classification.FAIL]
    else if n = "m.suite" then Option.some [Classification.PASS]
    else Option.none

def configsC7 : List Dict :=
  [[("TEST_SCRIPT", CfgVal.strVal "s.sh"),
    ("TIMEOUT", CfgVal.intVal 99),
    ("ROOT_ACCESS", CfgVal.boolVal false),
    ("EXPECTED_RETURN", CfgVal.intVal 2),
    ("CONCURRENT", CfgVal.boolVal true),
    ("NFS", CfgVal.boolVal false),
    ("VERSION", CfgVal.strVal "1.0"),
    ("SIZE", CfgVal.strVal "SMALL"),
    ("COMMENTS", CfgVal.nullVal),
    ("FLAGS", CfgVal.nullVal),
    ("ERROR", CfgVal.intVal 255)]]

end PyreRing

deriving instance DecidableEq for Except

namespace PyreRing

/-! ## Basic facts -/

/-- An integer modulo 256 is never `-1`, so the fatal-string override
value can match neither `EXPECTED_RETURN % 256` nor `ERROR % 256`. -/
theorem neg_one_ne_emod (x : Int) : (-1 : Int) ≠ x % 256 := by
  intro h
  have h0 : (0 : Int) ≤ x % 256 := Int.emod_nonneg x (by norm_num)
  omega

/-! ## C1: exit-code classification -/

/-- C1: a timeout sentinel (`None`) is classified TIMEOUT; an actual exit
code `e` in `[0,255]` is PASS iff `e = EXPECTED_RETURN % 256`, otherwise
ERROR iff `e = ERROR % 256`, otherwise FAIL; in particular exit code 255
with configured expected value `-1` is a PASS. -/
theorem C1_classification (e x err : Int) (he0 : 0 ≤ e) (he1 : e ≤ 255) :
    (checkAndReportResult x err (Option.some e) = Classification.PASS ↔ e = x % 256) ∧
    (e ≠ x % 256 →
      (checkAndReportResult x err (Option.some e) = Classification.ERROR ↔ e = err % 256)) ∧
    (e ≠ x % 256 → e ≠ err % 256 →
      checkAndReportResult x err (Option.some e) = Classification.FAIL) ∧
    checkAndReportResult x err Option.none = Classification.TIMEOUT ∧
    checkAndReportResult (-1) err (Option.some 255) = Classification.PASS := by
  refine ⟨?_, ?_, ?_, rfl, ?_⟩
  · constructor
    · intro h
      by_contra hne
      simp only [checkAndReportResult, if_neg hne] at h
      by_cases herr : e = err % 256 <;> simp [herr] at h
    · intro h
      simp [checkAndReportResult, h]
  · intro hne
    constructor
    · intro h
      by_contra herr
      simp [checkAndReportResult, hne, herr] at h
    · intro herr
      subst herr
      simp [checkAndReportResult, hne]
  · intro hne herr
    simp [checkAndReportResult, hne, herr]
  · have h : (255 : Int) = (-1) % 256 := by decide
    simp [checkAndReportResult, ← h]

/-- Witness for `C1_classification` at `e = 3`, `x = 259`, `err = 255`. -/
theorem C1_classification_witness :
    (0 : Int) ≤ 3 ∧ (3 : Int) ≤ 255 ∧
    (checkAndReportResult 259 255 (Option.some 3) = Classification.PASS ↔ (3 : Int) = 259 % 256) := by
  refine ⟨by norm_num, by norm_num, (C1_classification 3 259 255 (by norm_num) (by norm_num)).1⟩

/-! ## C10: silently ignored directive lines -/

/-- C10: a directive line starting with `##`, or not starting with `#`,
or not splitting into exactly two parts on `=`, parses to the empty
mapping without error; in particular a recognized key whose value
contains `=` is dropped, not parsed or rejected. -/
theorem C10_ignoredDirectiveLines :
    (∀ line : String,
      (startsWithStr line "#" = false ∨ startsWithStr line "##" = true ∨
        (splitChar line.toList '=').length ≠ 2) →
      parseLine line = Except.ok []) ∧
    parseLine "# TIMEOUT = 5=5" = Except.ok [] ∧
    parseLine "# FLAGS = a=b" = Except.ok [] := by
  refine ⟨?_, by decide, by decide⟩
  intro line h
  have hg : (!startsWithStr line "#" || startsWithStr line "##" ||
      !((splitChar line.toList '=').length = 2 : Bool)) = true := by
    rcases h with h | h | h
    · simp [h]
    · simp [h]
    · have hb : (((splitChar line.toList '=').length = 2) : Bool) = false :=
        decide_eq_false h
      simp only [hb, Bool.not_false, Bool.or_true]
  simp only [parseLine, hg, if_true]

/-- Witness for `C10_ignoredDirectiveLines` at the line `"TIMEOUT = 5"`
(no leading `#`). -/
theorem C10_ignoredDirectiveLines_witness :
    (startsWithStr "TIMEOUT = 5" "#" = false ∨
      startsWithStr "TIMEOUT = 5" "##" = true ∨
      (splitChar "TIMEOUT = 5".toList '=').length ≠ 2) ∧
    parseLine "TIMEOUT = 5" = Except.ok [] :=
  ⟨Or.inl (by decide),
   C10_ignoredDirectiveLines.1 "TIMEOUT = 5" (Or.inl (by decide))⟩

/-! ## C4 and C5: output scanning in `_CommandStreamer` -/

/-- C4 counterexample: with exit code 0 and no configured fatal-string
hit, a line matching the (case-insensitive) `error` pattern produces no
extra-message annotation at all — the catching scan only runs while the
running return code is truthy. -/
theorem C4_counterexample :
    matchesCI "error" "error: bad" = true ∧
    retFalsy (Option.some 0) = true ∧
    (commandStreamerScan ["XYZ"] "cmd" (Option.some 0) ["error: bad"]).2 = [] := by
  decide

/-- C4 amended: while the running return code is truthy, each line is
matched against the case-insensitive `fatal`, `error`, `warn` patterns in
that priority order, the first hit alone being annotated, and the return
code is unaffected; while the running return code is falsy (0 or the
timeout sentinel) no pattern annotation is produced — only a configured
fatal-string annotation can arise. -/
theorem C4_annotationScan (fatalStrings : List String) (cmd line : String)
    (r : Option Int) (msgs : List ExtraMsg) :
    (retFalsy r = false →
      (processLine fatalStrings cmd (r, msgs) line).1 = r ∧
      (matchesCI "fatal" line = true →
        processLine fatalStrings cmd (r, msgs) line =
          (r, msgs ++ [ExtraMsg.caught cmd "fatal" line])) ∧
      (matchesCI "fatal" line = false → matchesCI "error" line = true →
        processLine fatalStrings cmd (r, msgs) line =
          (r, msgs ++ [ExtraMsg.caught cmd "error" line])) ∧
      (matchesCI "fatal" line = false → matchesCI "error" line = false →
        matchesCI "warn" line = true →
        processLine fatalStrings cmd (r, msgs) line =
          (r, msgs ++ [ExtraMsg.caught cmd "warn" line])) ∧
      (matchesCI "fatal" line = false → matchesCI "error" line = false →
        matchesCI "warn" line = false →
        processLine fatalStrings cmd (r, msgs) line = (r, msgs))) ∧
    (retFalsy r = true →
      (processLine fatalStrings cmd (r, msgs) line).2 = msgs ∨
      (processLine fatalStrings cmd (r, msgs) line).2 =
        msgs ++ [ExtraMsg.fatalString cmd line]) := by
  constructor
  · intro hr
    refine ⟨?_, ?_, ?_, ?_, ?_⟩
    · simp only [processLine, hr, Bool.false_eq_true, if_false]
      cases hfc : findCatch line <;> simp
    · intro hf
      simp [processLine, hr, findCatch, catchingList, List.find?, hf]
    · intro hf he
      simp [processLine, hr, findCatch, catchingList, List.find?, hf, he]
    · intro hf he hw
      simp [processLine, hr, findCatch, catchingList, List.find?, hf, he, hw]
    · intro hf he hw
      simp [processLine, hr, findCatch, catchingList, List.find?, hf, he, hw]
  · intro hr
    simp only [processLine, hr, if_true]
    cases hff : findFatal fatalStrings line <;> simp

/-- Witness for `C4_annotationScan`: a truthy return code 2 and the line
`"Fatal error ahead"`, annotated as a `fatal` hit only. -/
theorem C4_annotationScan_witness :
    retFalsy (Option.some 2) = false ∧
    matchesCI "fatal" "Fatal error ahead" = true ∧
    processLine [] "cmd" (Option.some 2, []) "Fatal error ahead" =
      (Option.some 2, [ExtraMsg.caught "cmd" "fatal" "Fatal error ahead"]) :=
  ⟨by decide, by decide,
   ((C4_annotationScan [] "cmd" "Fatal error ahead" (Option.some 2) []).1
      (by decide)).2.1 (by decide)⟩

/-- Messages already emitted stay in the stream. -/
theorem scan_msgs_mono (fatalStrings : List String) (cmd : String) :
    ∀ (lines : List String) (r : Option Int) (msgs : List ExtraMsg) (x : ExtraMsg),
      x ∈ msgs → x ∈ (lines.foldl (processLine fatalStrings cmd) (r, msgs)).2 := by
  intro lines
  induction lines with
  | nil => intro r msgs x hx; simpa using hx
  | cons l rest ih =>
    intro r msgs x hx
    simp only [List.foldl_cons]
    have h2 : x ∈ (processLine fatalStrings cmd (r, msgs) l).2 := by
      simp only [processLine]
      by_cases hr : retFalsy r = true
      · simp only [hr, if_true]
        cases findFatal fatalStrings l <;> simp [hx]
      · simp only [Bool.not_eq_true] at hr
        simp only [hr, Bool.false_eq_true, if_false]
        cases findCatch l <;> simp [hx]
    have := ih (processLine fatalStrings cmd (r, msgs) l).1
      (processLine fatalStrings cmd (r, msgs) l).2 x h2
    simpa using this

/-- A truthy return code survives the rest of the scan unchanged. -/
theorem scan_ret_truthy_fixed (fatalStrings : List String) (cmd : String) :
    ∀ (lines : List String) (r : Option Int) (msgs : List ExtraMsg),
      retFalsy r = false →
      (lines.foldl (processLine fatalStrings cmd) (r, msgs)).1 = r := by
  intro lines
  induction lines with
  | nil => intro r msgs _; rfl
  | cons l rest ih =>
    intro r msgs hr
    simp only [List.foldl_cons]
    have hstep : processLine fatalStrings cmd (r, msgs) l =
        (r, (processLine fatalStrings cmd (r, msgs) l).2) := by
      simp only [processLine, hr, Bool.false_eq_true, if_false]
      cases findCatch l <;> simp
    rw [hstep]
    exact ih r _ hr

/-- Core of C5: starting falsy, if some line carries a configured fatal
string then the scan ends with return code `-1` and the first such line
is annotated by a fatal-string extra message. -/
theorem scan_fatal_hit (fatalStrings : List String) (cmd : String) :
    ∀ (lines : List String) (r : Option Int) (msgs : List ExtraMsg),
      retFalsy r = true →
      (∃ line ∈ lines, (findFatal fatalStrings line).isSome = true) →
      (lines.foldl (processLine fatalStrings cmd) (r, msgs)).1 = Option.some (-1) ∧
      ∃ l ∈ lines, (findFatal fatalStrings l).isSome = true ∧
        ExtraMsg.fatalString cmd l ∈
          (lines.foldl (processLine fatalStrings cmd) (r, msgs)).2 := by
  intro lines
  induction lines with
  | nil =>
    intro r msgs _ h
    rcases h with ⟨l, hl, _⟩
    exact absurd hl (List.not_mem_nil l)
  | cons l rest ih =>
    intro r msgs hr h
    by_cases hf : (findFatal fatalStrings l).isSome = true
    · rcases Option.isSome_iff_exists.mp hf with ⟨fs, hfs⟩
      have hstep : processLine fatalStrings cmd (r, msgs) l =
          (Option.some (-1), msgs ++ [ExtraMsg.fatalString cmd l]) := by
        simp [processLine, hr, hfs]
      simp only [List.foldl_cons, hstep]
      constructor
      · exact scan_ret_truthy_fixed fatalStrings cmd rest _ _ (by decide)
      · refine ⟨l, List.mem_cons_self l rest, hf, ?_⟩
        exact scan_msgs_mono fatalStrings cmd rest _ _ _ (by simp)
    · have hstep : processLine fatalStrings cmd (r, msgs) l = (r, msgs) := by
        cases hff : findFatal fatalStrings l with
        | none => simp [processLine, hr, hff]
        | some v => exact absurd (by simp [hff]) hf
      simp only [List.foldl_cons, hstep]
      have hrest : ∃ line ∈ rest, (findFatal fatalStrings line).isSome = true := by
        rcases h with ⟨l', hl', hf'⟩
        rcases List.mem_cons.mp hl' with h1 | h1
        · exact absurd (h1 ▸ hf') hf
        · exact ⟨l', h1, hf'⟩
      rcases ih r msgs hr hrest with ⟨h1, l', hl', hf', hm⟩
      exact ⟨h1, l', List.mem_cons_of_mem l hl', hf', hm⟩

/-- C5: a script exiting 0 whose output contains a configured fatal
substring has its return code overridden to the sentinel `-1`, an extra
message names a triggering line, and the final classification is FAIL
(never PASS or ERROR) for every configured expected/error value. -/
theorem C5_fatalStringForcesFail (fatalStrings : List String) (cmd : String)
    (lines : List String) (x err : Int)
    (h : ∃ line ∈ lines, (findFatal fatalStrings line).isSome = true) :
    (commandStreamerScan fatalStrings cmd (Option.some 0) lines).1 = Option.some (-1) ∧
    (∃ l ∈ lines, (findFatal fatalStrings l).isSome = true ∧
      ExtraMsg.fatalString cmd l ∈
        (commandStreamerScan fatalStrings cmd (Option.some 0) lines).2) ∧
    checkAndReportResult x err
      (commandStreamerScan fatalStrings cmd (Option.some 0) lines).1 =
      Classification.FAIL := by
  have hmain := scan_fatal_hit fatalStrings cmd lines (Option.some 0) [] (by decide) h
  refine ⟨hmain.1, hmain.2, ?_⟩
  rw [show (commandStreamerScan fatalStrings cmd (Option.some 0) lines).1 =
        Option.some (-1) from hmain.1]
  simp [checkAndReportResult, (neg_one_ne_emod x), (neg_one_ne_emod err)]

/-- Witness for `C5_fatalStringForcesFail`: output line `"Fatal: oops"`
with configured fatal string `"Fatal:"`. -/
theorem C5_fatalStringForcesFail_witness :
    (∃ line ∈ ["ok", "Fatal: oops"], (findFatal ["Fatal:"] line).isSome = true) ∧
    (commandStreamerScan ["Fatal:"] "c" (Option.some 0) ["ok", "Fatal: oops"]).1 =
      Option.some (-1) ∧
    checkAndReportResult 0 255
      (commandStreamerScan ["Fatal:"] "c" (Option.some 0) ["ok", "Fatal: oops"]).1 =
      Classification.FAIL := by
  have h : ∃ line ∈ ["ok", "Fatal: oops"], (findFatal ["Fatal:"] line).isSome = true :=
    ⟨"Fatal: oops", by decide, by decide⟩
  have := C5_fatalStringForcesFail ["Fatal:"] "c" ["ok", "Fatal: oops"] 0 255 h
  exact ⟨h, this.1, this.2.2⟩

/-! ## C2: timeout handling in `RunCommandToLoggerWithTimeout` -/

/-- C2 counterexample: the launch does not put the child in its own
process group, and on deadline expiry the kill action goes to the child
pid only, with `SIGKILL` rather than a graceful termination signal. -/
theorem C2_counterexample :
    popenOfRunCommand.preexecSetsid = false ∧
    runCommandToLoggerWithTimeout 2 { exitAt := Option.none, code := 0 } =
      (Option.none, [{ target := KillTarget.childPid, sig := Sig.SIGKILL }]) ∧
    (∀ a ∈ (runCommandToLoggerWithTimeout 2 { exitAt := Option.none, code := 0 }).2,
      a.target ≠ KillTarget.childProcessGroup ∧ a.sig ≠ Sig.SIGTERM) := by
  decide

/-- If the child is still unfinished at every tick through the deadline,
the polling loop runs to the full timeout. -/
theorem finalTickGo_all_none (child : ChildProc) :
    ∀ (remaining t : Nat),
      (∀ u, u ≤ t + remaining → pollAt child u = Option.none) →
      finalTickGo child remaining t = t + remaining := by
  intro remaining
  induction remaining with
  | zero => intro t _; rfl
  | succ r ih =>
    intro t h
    have h0 : pollAt child t = Option.none := h t (by omega)
    simp only [finalTickGo, h0]
    have := ih (t + 1) (fun u hu => h u (by omega))
    rw [this]
    omega

/-- C2 amended: the script is launched through the shell with combined
stdout/stderr piped but *not* in its own process group; if the deadline
is reached while the process is still running, `SIGKILL` is sent to the
child pid and the timeout sentinel (`None`) is returned regardless of
any exit code that might later surface. -/
theorem C2_timeoutKillsPidOnly (timeout : Nat) (child : ChildProc)
    (h : ∀ t, t ≤ timeout → pollAt child t = Option.none) :
    runCommandToLoggerWithTimeout timeout child =
      (Option.none, [{ target := KillTarget.childPid, sig := Sig.SIGKILL }]) ∧
    popenOfRunCommand.shell = true ∧
    popenOfRunCommand.stderrToStdout = true ∧
    popenOfRunCommand.preexecSetsid = false := by
  have ht : finalTick child timeout = timeout := by
    have := finalTickGo_all_none child timeout 0 (fun u hu => h u (by omega))
    simpa [finalTick] using this
  refine ⟨?_, rfl, rfl, rfl⟩
  simp only [runCommandToLoggerWithTimeout, ht, h timeout (le_refl _)]

/-- Witness for `C2_timeoutKillsPidOnly`: a child that never exits, with
a 3-second timeout. -/
theorem C2_timeoutKillsPidOnly_witness :
    runCommandToLoggerWithTimeout 3 { exitAt := Option.none, code := 7 } =
      (Option.none, [{ target := KillTarget.childPid, sig := Sig.SIGKILL }]) :=
  (C2_timeoutKillsPidOnly 3 { exitAt := Option.none, code := 7 }
    (fun _ _ => rfl)).1

/-! ## C6: exclude-before-recursion in `_ReadSuiteFiles` -/

/-- C6: within one suite file's pass the exclude sets are subtracted
from the include sets before any nested-suite recursion: the include
suites recursed into are the include-suite set minus the exclude-suite
set, a suite with no nested suites resolves to exactly its include
test-cases minus its exclude test-cases, and
`{a,b,c} - {b} = {a,c}`. -/
theorem C6_excludePriority (fs : FS) (fuel : Nat) (st : ScanState)
    (path : String) (c : SuiteContent)
    (h : fsLookup fs path = Option.some c)
    (hinc : c.incSuites = []) (hexc : c.excSuites = []) :
    readSuiteFiles fs (fuel + 1) st path =
      Except.ok (setDiff c.incTc.dedup c.excTc.dedup, st) ∧
    (∀ c' p', fsLookup fs p' = Option.some c' →
      effSuites fs EdgeKind.inc p' = setDiff c'.incSuites.dedup c'.excSuites.dedup) ∧
    setDiff ["a", "b", "c"] ["b"] = ["a", "c"] := by
  refine ⟨?_, ?_, by decide⟩
  · have hd : setDiff (List.dedup []) (List.dedup c.excSuites) = [] := by
      simp [setDiff]
    simp [readSuiteFiles, h, hinc, hexc, hd, processIncludes, processExcludes,
      List.dedup_nil, setDiff]
  · intro c' p' h'
    simp [effSuites, h']

/-- Witness for `C6_excludePriority`: a suite including test cases
`a`, `b`, `c` and excluding `b` resolves to `{a, c}`. -/
theorem C6_excludePriority_witness :
    readSuiteFiles
      [("s.suite", { incTc := ["a", "b", "c"], incSuites := [],
                     excTc := ["b"], excSuites := [] })] 5 initState "s.suite" =
      Except.ok (["a", "c"], initState) := by
  have := (C6_excludePriority
    [("s.suite", { incTc := ["a", "b", "c"], incSuites := [],
                   excTc := ["b"], excSuites := [] })] 4 initState "s.suite"
    { incTc := ["a", "b", "c"], incSuites := [], excTc := ["b"], excSuites := [] }
    (by decide) rfl rfl).1
  simpa using this

/-! ## C7: suite-level override and `TEST_SCRIPT` invariant -/

theorem dget_dset_self (d : Dict) (k : String) (v : CfgVal) :
    dget (dset d k v) k = Option.some v := by
  induction d with
  | nil => simp [dset, dget]
  | cons kv rest ih =>
    by_cases h : kv.1 = k
    · simp [dset, dget, h]
    · simp [dset, dget, h, ih]

theorem dget_dset_ne (d : Dict) (k' k : String) (v : CfgVal) (h : k' ≠ k) :
    dget (dset d k' v) k = dget d k := by
  induction d with
  | nil => simp [dset, dget, h]
  | cons kv rest ih =>
    by_cases h1 : kv.1 = k'
    · simp [dset, dget, h1, h]
    · simp only [dset, h1, if_false]
      by_cases h2 : kv.1 = k <;> simp [dget, h2, ih]

theorem dget_dpop (d : Dict) (p k : String) :
    dget (dpop d p) k = if p = k then Option.none else dget d k := by
  induction d with
  | nil => simp [dpop, dget]
  | cons kv rest ih =>
    by_cases hp : kv.1 = p
    · by_cases hpk : p = k
      · subst hpk
        simp [dpop, hp, ih]
      · have hkk : kv.1 ≠ k := by rw [hp]; exact hpk
        simp [dpop, hp, ih, hpk, dget, hkk]
    · by_cases hk : kv.1 = k
      · have hpk : p ≠ k := fun hc => hp (by rw [hk, hc])
        have hkp : k ≠ p := Ne.symm hpk
        simp [dpop, hp, dget, hk, hpk, hkp]
      · simp [dpop, hp, dget, hk, ih]

theorem mem_of_mem_dpop (k : String) (kv : String × CfgVal) :
    ∀ d : Dict, kv ∈ dpop d k → kv ∈ d := by
  intro d
  induction d with
  | nil => intro h; simpa [dpop] using h
  | cons kv2 rest ih =>
    intro h
    by_cases h2 : kv2.1 = k
    · simp only [dpop, h2, if_true] at h
      exact List.mem_cons_of_mem kv2 (ih h)
    · simp only [dpop, h2, if_false] at h
      rcases List.mem_cons.mp h with h3 | h3
      · exact h3 ▸ List.mem_cons_self kv2 rest
      · exact List.mem_cons_of_mem kv2 (ih h3)

theorem key_ne_of_mem_dpop (k : String) (kv : String × CfgVal) :
    ∀ d : Dict, kv ∈ dpop d k → kv.1 ≠ k := by
  intro d
  induction d with
  | nil => intro h; simp [dpop] at h
  | cons kv2 rest ih =>
    intro h
    by_cases h2 : kv2.1 = k
    · simp only [dpop, h2, if_true] at h
      exact ih h
    · simp only [dpop, h2, if_false] at h
      rcases List.mem_cons.mp h with h3 | h3
      · rw [h3]; exact h2
      · exact ih h3

theorem key_ne_of_dget_none (k : String) :
    ∀ d : Dict, dget d k = Option.none → ∀ kv ∈ d, kv.1 ≠ k := by
  intro d
  induction d with
  | nil => intro _ kv hkv; exact absurd hkv (List.not_mem_nil kv)
  | cons kv2 rest ih =>
    intro h kv hkv
    by_cases h2 : kv2.1 = k
    · simp [dget, h2] at h
    · simp only [dget, h2, if_false] at h
      rcases List.mem_cons.mp hkv with h3 | h3
      · rw [h3]; exact h2
      · exact ih h kv h3

/-- A `dict.update` never touches keys absent from the update. -/
theorem dget_dictUpdate_not_mem (u : Dict) (k : String)
    (h : ∀ kv ∈ u, kv.1 ≠ k) :
    ∀ c : Dict, dget (dictUpdate c u) k = dget c k := by
  induction u with
  | nil => intro c; rfl
  | cons kv rest ih =>
    intro c
    simp only [dictUpdate, List.foldl_cons]
    have h1 := h kv (List.mem_cons_self kv rest)
    have := ih (fun kv' hkv' => h kv' (List.mem_cons_of_mem kv hkv')) (dset c kv.1 kv.2)
    simpa [dictUpdate, dget_dset_ne c kv.1 k kv.2 h1] using this

/-- A `dict.update` writes every binding of an update whose keys are
distinct. -/
theorem dget_dictUpdate_mem (u : Dict) (k : String) (v : CfgVal)
    (hnd : (u.map Prod.fst).Nodup) (h : dget u k = Option.some v) :
    ∀ c : Dict, dget (dictUpdate c u) k = Option.some v := by
  induction u with
  | nil => intro c; simp [dget] at h
  | cons kv rest ih =>
    intro c
    simp only [List.map_cons, List.nodup_cons] at hnd
    simp only [dictUpdate, List.foldl_cons]
    by_cases hk : kv.1 = k
    · simp only [dget, hk, if_true] at h
      have hout : ∀ kv' ∈ rest, kv'.1 ≠ k := by
        intro kv' hkv' hc
        apply hnd.1
        have hm : kv'.1 ∈ rest.map Prod.fst := List.mem_map_of_mem Prod.fst hkv'
        rw [hc] at hm
        rw [hk]
        exact hm
      have hrest := dget_dictUpdate_not_mem rest k hout (dset c kv.1 kv.2)
      simp only [dictUpdate] at hrest
      rw [hrest, hk, dget_dset_self]
      exact h
    · simp only [dget, hk, if_false] at h
      exact ih hnd.2 h (dset c kv.1 kv.2)

/-- The keys of `dset d k v`. -/
theorem keys_dset (d : Dict) (k : String) (v : CfgVal) :
    (dset d k v).map Prod.fst =
      if k ∈ d.map Prod.fst then d.map Prod.fst else d.map Prod.fst ++ [k] := by
  induction d with
  | nil => simp [dset]
  | cons kv rest ih =>
    by_cases hk : kv.1 = k
    · simp [dset, hk]
    · simp only [dset, hk, if_false, List.map_cons, ih]
      by_cases hm : k ∈ rest.map Prod.fst
      · have : k ∈ kv.1 :: rest.map Prod.fst := List.mem_cons_of_mem kv.1 hm
        simp [hm, this]
      · have : ¬ k ∈ kv.1 :: rest.map Prod.fst := by
          intro hc
          rcases List.mem_cons.mp hc with h3 | h3
          · exact hk h3.symm
          · exact hm h3
        simp [hm, this]

theorem nodup_keys_dset (d : Dict) (k : String) (v : CfgVal)
    (h : (d.map Prod.fst).Nodup) : ((dset d k v).map Prod.fst).Nodup := by
  rw [keys_dset]
  by_cases hm : k ∈ d.map Prod.fst
  · simpa [hm] using h
  · simp only [hm, if_false]
    rw [List.nodup_append]
    refine ⟨h, List.nodup_singleton k, fun a ha hak => ?_⟩
    have : a = k := by simpa using hak
    exact hm (this ▸ ha)

theorem nodup_keys_dictUpdate (u : Dict) :
    ∀ d : Dict, (d.map Prod.fst).Nodup → ((dictUpdate d u).map Prod.fst).Nodup := by
  induction u with
  | nil => intro d h; exact h
  | cons kv rest ih =>
    intro d h
    simp only [dictUpdate, List.foldl_cons]
    exact ih (dset d kv.1 kv.2) (nodup_keys_dset d kv.1 kv.2 h)

theorem nodup_keys_dpop (d : Dict) (k : String)
    (h : (d.map Prod.fst).Nodup) : ((dpop d k).map Prod.fst).Nodup := by
  induction d with
  | nil => simp [dpop]
  | cons kv rest ih =>
    simp only [List.map_cons, List.nodup_cons] at h
    by_cases hk : kv.1 = k
    · simp only [dpop, hk, if_true]
      exact ih h.2
    · simp only [dpop, hk, if_false, List.map_cons, List.nodup_cons]
      refine ⟨?_, ih h.2⟩
      intro hc
      rcases List.mem_map.mp hc with ⟨kv', hkv', hfst⟩
      apply h.1
      rw [← hfst]
      exact List.mem_map_of_mem Prod.fst (mem_of_mem_dpop k kv' rest hkv')

theorem nodup_keys_parseListAfterStart :
    ∀ (lines : List String) (acc d : Dict),
      (acc.map Prod.fst).Nodup →
      parseListAfterStart lines acc = Except.ok d → (d.map Prod.fst).Nodup := by
  intro lines
  induction lines with
  | nil => intro acc d _ h; simp [parseListAfterStart] at h
  | cons l rest ih =>
    intro acc d hacc h
    simp only [parseListAfterStart] at h
    by_cases h1 : startsWithStr (stripStr l) END_SIGN = true
    · simp only [h1, if_true] at h
      exact (Except.ok.inj h) ▸ hacc
    · simp only [h1, if_false] at h
      by_cases h2 : startsWithStr (stripStr l) "#" = true
      · simp only [h2, if_true] at h
        cases h3 : parseLine (stripStr l) with
        | error e => rw [h3] at h; exact absurd h (by simp)
        | ok pd =>
          rw [h3] at h
          exact ih (dictUpdate acc pd) d (nodup_keys_dictUpdate pd acc hacc) h
      · simp only [h2, if_false] at h
        exact ih acc d hacc h

theorem nodup_keys_defaultConfig : (defaultConfig.map Prod.fst).Nodup := by
  decide

theorem nodup_keys_parseList (lines : List String) (pd : Bool) (d : Dict)
    (h : parseList lines pd = Except.ok d) : (d.map Prod.fst).Nodup := by
  simp only [parseList] at h
  cases hf : parseListFindStart lines with
  | error e => rw [hf] at h; exact absurd h (by simp)
  | ok cfg =>
    rw [hf] at h
    have hcfg : (cfg.map Prod.fst).Nodup := by
      clear h
      induction lines with
      | nil =>
        simp only [parseListFindStart] at hf
        exact (Except.ok.inj hf) ▸ List.nodup_nil
      | cons l rest ih =>
        simp only [parseListFindStart] at hf
        by_cases h1 : startsWithStr (stripStr l) START_SIGN = true
        · simp only [h1, if_true] at hf
          exact nodup_keys_parseListAfterStart rest [] cfg List.nodup_nil hf
        · simp only [h1, if_false] at hf
          exact ih hf
    cases pd with
    | true =>
      simp only [if_true] at h
      exact (Except.ok.inj h) ▸ nodup_keys_dictUpdate cfg defaultConfig
        nodup_keys_defaultConfig
    | false =>
      simp only [Bool.false_eq_true, if_false] at h
      exact (Except.ok.inj h) ▸ hcfg

theorem nodup_keys_parseFile (files : FilesMap) (f : String) (pd : Bool)
    (d : Dict) (h : parseFile files f pd = Except.ok d) :
    (d.map Prod.fst).Nodup := by
  simp only [parseFile] at h
  by_cases hb : extOf f ∈ BINARY_SUFFIXES
  · simp only [hb, if_true] at h
    exact (Except.ok.inj h) ▸
      nodup_keys_dset defaultConfig "TEST_SCRIPT" (CfgVal.strVal f)
        nodup_keys_defaultConfig
  · simp only [hb, if_false] at h
    cases hl : filesLookup files f with
    | none => rw [hl] at h; exact absurd h (by simp)
    | some lines =>
      rw [hl] at h
      dsimp only at h
      cases hp : parseList lines pd with
      | error e => rw [hp] at h; exact absurd h (by simp)
      | ok cfg =>
        rw [hp] at h
        exact (Except.ok.inj h) ▸
          nodup_keys_dset cfg "TEST_SCRIPT" (CfgVal.strVal f)
            (nodup_keys_parseList lines pd cfg hp)

/-- `ParseFile` always ends by overwriting `TEST_SCRIPT` with the file's
own path. -/
theorem parseFile_test_script (files : FilesMap) (f : String) (pd : Bool)
    (d : Dict) (h : parseFile files f pd = Except.ok d) :
    dget d "TEST_SCRIPT" = Option.some (CfgVal.strVal f) := by
  simp only [parseFile] at h
  by_cases hb : extOf f ∈ BINARY_SUFFIXES
  · simp only [hb, if_true] at h
    rw [← Except.ok.inj h]
    exact dget_dset_self defaultConfig "TEST_SCRIPT" (CfgVal.strVal f)
  · simp only [hb, if_false] at h
    cases hl : filesLookup files f with
    | none => rw [hl] at h; exact absurd h (by simp)
    | some lines =>
      rw [hl] at h
      dsimp only at h
      cases hp : parseList lines pd with
      | error e => rw [hp] at h; exact absurd h (by simp)
      | ok cfg =>
        rw [hp] at h
        rw [← Except.ok.inj h]
        exact dget_dset_self cfg "TEST_SCRIPT" (CfgVal.strVal f)

/-- `ParseFiles` succeeds with one config per file, in order, each the
`ParseFile` of the corresponding file. -/
theorem parseFiles_spec (files : FilesMap) :
    ∀ (l : List String) (pd : Bool) (cs : List Dict),
      parseFiles files l pd = Except.ok cs →
      cs.length = l.length ∧
      ∀ i ci f, cs.get? i = Option.some ci → l.get? i = Option.some f →
        parseFile files f pd = Except.ok ci := by
  intro l
  induction l with
  | nil =>
    intro pd cs h
    simp only [parseFiles] at h
    rw [← Except.ok.inj h]
    exact ⟨rfl, fun i ci f hci _ => by simp at hci⟩
  | cons f0 rest ih =>
    intro pd cs h
    simp only [parseFiles] at h
    cases h1 : parseFile files f0 pd with
    | error e => rw [h1] at h; exact absurd h (by simp)
    | ok c =>
      rw [h1] at h
      cases h2 : parseFiles files rest pd with
      | error e => rw [h2] at h; exact absurd h (by simp)
      | ok cs' =>
        rw [h2] at h
        dsimp only at h
        rw [← Except.ok.inj h]
        rcases ih pd cs' h2 with ⟨hlen, hget⟩
        refine ⟨by simp [hlen], ?_⟩
        intro i ci f hci hf
        cases i with
        | zero =>
          simp only [List.get?] at hci hf
          rw [← Option.some.inj hci, ← Option.some.inj hf]
          exact h1
        | succ j =>
          simp only [List.get?] at hci hf
          exact hget j ci f hci hf

/-- C7: every config produced by `ParseSuite` carries `TEST_SCRIPT` equal
to that script's own path (whatever the script file or the suite file
contain); every other key present in the suite file's own directive block
takes the suite's value; keys absent from the suite block keep the value
from the script's own `ParseFile`. -/
theorem C7_parseSuiteOverride (files : FilesMap) (suiteFile : String)
    (fileList : List String) (pd : Bool) (sc : Dict) (configs : List Dict)
    (hsc : parseFile files suiteFile false = Except.ok sc)
    (h : parseSuite files suiteFile fileList pd = Except.ok configs) :
    configs.length = fileList.length ∧
    (∀ i ci f, configs.get? i = Option.some ci →
      fileList.get? i = Option.some f →
      dget ci "TEST_SCRIPT" = Option.some (CfgVal.strVal f)) ∧
    (∀ i ci k v, configs.get? i = Option.some ci →
      k ≠ "TEST_SCRIPT" → dget sc k = Option.some v →
      dget ci k = Option.some v) ∧
    (∀ i ci f k, configs.get? i = Option.some ci →
      fileList.get? i = Option.some f →
      dget sc k = Option.none →
      ∃ cf, parseFile files f pd = Except.ok cf ∧ dget ci k = dget cf k) := by
  simp only [parseSuite, hsc] at h
  cases hfl : parseFiles files fileList pd with
  | error e => rw [hfl] at h; exact absurd h (by simp)
  | ok cs =>
    rw [hfl] at h
    rcases parseFiles_spec files fileList pd cs hfl with ⟨hlen, hget⟩
    have hcfg : configs = cs.map (fun c => dictUpdate c (dpop sc "TEST_SCRIPT")) :=
      (Except.ok.inj h).symm
    have hci : ∀ i ci, configs.get? i = Option.some ci →
        ∃ c', cs.get? i = Option.some c' ∧ ci = dictUpdate c' (dpop sc "TEST_SCRIPT") := by
      intro i ci hi
      rw [hcfg, List.get?_map] at hi
      cases hc : cs.get? i with
      | none => rw [hc] at hi; simp at hi
      | some c' =>
        rw [hc] at hi
        simp only [Option.map_some'] at hi
        exact ⟨c', rfl, (Option.some.inj hi).symm⟩
    have hscnd : ((dpop sc "TEST_SCRIPT").map Prod.fst).Nodup :=
      nodup_keys_dpop sc "TEST_SCRIPT"
        (nodup_keys_parseFile files suiteFile false sc hsc)
    refine ⟨by rw [hcfg]; simpa using hlen, ?_, ?_, ?_⟩
    · intro i ci f hi hf
      rcases hci i ci hi with ⟨c', hc', rfl⟩
      have hts : ∀ kv ∈ dpop sc "TEST_SCRIPT", kv.1 ≠ "TEST_SCRIPT" :=
        fun kv hkv => key_ne_of_mem_dpop "TEST_SCRIPT" kv sc hkv
      rw [dget_dictUpdate_not_mem (dpop sc "TEST_SCRIPT") "TEST_SCRIPT" hts]
      exact parseFile_test_script files f pd c' (hget i c' f hc' hf)
    · intro i ci k v hi hk hv
      rcases hci i ci hi with ⟨c', _, rfl⟩
      refine dget_dictUpdate_mem (dpop sc "TEST_SCRIPT") k v hscnd ?_ c'
      have hne : ¬("TEST_SCRIPT" = k) := fun hc => hk hc.symm
      rw [dget_dpop, if_neg hne]
      exact hv
    · intro i ci f k hi hf hnone
      rcases hci i ci hi with ⟨c', hc', rfl⟩
      refine ⟨c', hget i c' f hc' hf, ?_⟩
      refine dget_dictUpdate_not_mem (dpop sc "TEST_SCRIPT") k ?_ c'
      intro kv hkv
      exact key_ne_of_dget_none k sc hnone kv (mem_of_mem_dpop "TEST_SCRIPT" kv sc hkv)

/-- Witness for `C7_parseSuiteOverride`: the suite's `TIMEOUT = 99`
overrides the script's `TIMEOUT = 5`, the script's `EXPECTED_RETURN = 2`
survives, and `TEST_SCRIPT` is the script's own path despite the
`TEST_SCRIPT = junk` directive in the script file. -/
theorem C7_parseSuiteOverride_witness :
    parseFile filesC7 "t.suite" false = Except.ok scC7 ∧
    parseSuite filesC7 "t.suite" ["s.sh"] true = Except.ok configsC7 ∧
    (∀ i ci f, configsC7.get? i = Option.some ci →
      ["s.sh"].get? i = Option.some f →
      dget ci "TEST_SCRIPT" = Option.some (CfgVal.strVal f)) ∧
    (∀ i ci k v, configsC7.get? i = Option.some ci →
      k ≠ "TEST_SCRIPT" → dget scC7 k = Option.some v →
      dget ci k = Option.some v) := by
  have h1 : parseFile filesC7 "t.suite" false = Except.ok scC7 := by decide
  have h2 : parseSuite filesC7 "t.suite" ["s.sh"] true = Except.ok configsC7 := by
    decide
  have h := C7_parseSuiteOverride filesC7 "t.suite" ["s.sh"] true scC7 configsC7 h1 h2
  exact ⟨h1, h2, h.2.1, h.2.2.1⟩


/-! ## C8: setup failure short-circuits the run -/

/-- Only names from the list appear in the trace. -/
theorem runSuites_trace_subset (oracle : String → Option (List Classification)) :
    ∀ l : List String, ∀ t ∈ (runSuites oracle l).2, t ∈ l := by
  intro l
  induction l with
  | nil => intro t ht; simpa [runSuites] using ht
  | cons s rest ih =>
    intro t ht
    simp only [runSuites] at ht
    cases ho : oracle s with
    | none =>
      rw [ho] at ht
      dsimp only at ht
      exact List.mem_cons_of_mem s (ih t ht)
    | some outs =>
      rw [ho] at ht
      dsimp only at ht
      by_cases hfl : (suiteFailFlag outs && SETUP_SUITE.contains s) = true
      · rw [if_pos hfl] at ht
        rcases List.mem_singleton.mp ht with rfl
        exact List.mem_cons_self t rest
      · rw [if_neg hfl] at ht
        rcases List.mem_cons.mp ht with rfl | h2
        · exact List.mem_cons_self t rest
        · exact List.mem_cons_of_mem s (ih t h2)

/-- A resolvable failing suite whose name is a setup name makes
`_RunSuites` return 1. -/
theorem runSuites_fail (oracle : String → Option (List Classification)) :
    ∀ l : List String,
      (∀ s ∈ l, SETUP_SUITE.contains s = true) →
      (∃ s ∈ l, ∃ outs, oracle s = Option.some outs ∧ suiteFailFlag outs = true) →
      (runSuites oracle l).1 = 1 := by
  intro l
  induction l with
  | nil =>
    intro _ hex
    rcases hex with ⟨s, hs, _⟩
    exact absurd hs (List.not_mem_nil s)
  | cons s0 rest ih =>
    intro hall hex
    simp only [runSuites]
    cases ho : oracle s0 with
    | none =>
      refine ih (fun s hs => hall s (List.mem_cons_of_mem s0 hs)) ?_
      rcases hex with ⟨s, hs, outs, hout, hfl⟩
      rcases List.mem_cons.mp hs with rfl | h2
      · rw [ho] at hout; exact absurd hout (by simp)
      · exact ⟨s, h2, outs, hout, hfl⟩
    | some outs0 =>
      by_cases hfl0 : suiteFailFlag outs0 = true
      · have hmem : s0 ∈ SETUP_SUITE :=
          List.mem_of_elem_eq_true (hall s0 (List.mem_cons_self s0 rest))
        simp [hfl0, hmem]
      · have hne : (suiteFailFlag outs0 && SETUP_SUITE.contains s0) = false := by
        -- the flag is false
          simp only [Bool.not_eq_true] at hfl0
          rw [hfl0]
          rfl
        simp only [hne, Bool.false_eq_true, if_false]
        refine ih (fun s hs => hall s (List.mem_cons_of_mem s0 hs)) ?_
        rcases hex with ⟨s, hs, outs, hout, hfl⟩
        rcases List.mem_cons.mp hs with rfl | h2
        · rw [ho] at hout
          rw [Option.some.inj hout] at hfl0
          exact absurd hfl hfl0
        · exact ⟨s, h2, outs, hout, hfl⟩

/-- If no element can trigger the early return, `_RunSuites` returns 0
and runs exactly the resolvable names, in order. -/
theorem runSuites_no_fail (oracle : String → Option (List Classification)) :
    ∀ l : List String,
      (∀ s ∈ l, ∀ outs, oracle s = Option.some outs →
        (suiteFailFlag outs && SETUP_SUITE.contains s) = false) →
      runSuites oracle l = (0, l.filter (fun s => (oracle s).isSome)) := by
  intro l
  induction l with
  | nil => intro _; rfl
  | cons s0 rest ih =>
    intro hall
    simp only [runSuites]
    cases ho : oracle s0 with
    | none =>
      rw [ih (fun s hs => hall s (List.mem_cons_of_mem s0 hs))]
      simp [List.filter_cons, ho]
    | some outs0 =>
      have hne := hall s0 (List.mem_cons_self s0 rest) outs0 ho
      simp only [hne, Bool.false_eq_true, if_false]
      rw [ih (fun s hs => hall s (List.mem_cons_of_mem s0 hs))]
      simp [List.filter_cons, ho]

/-- C8: with setup not skipped, a setup suite containing a non-PASS
script makes the whole run return the distinguished setup-failure result
with only setup suites having run — no main suite and no teardown suite
runs; and when no setup suite fails (and no main-suite name collides
with the well-known setup names) every resolvable main suite and every
resolvable teardown suite runs, whatever its scripts' classifications —
setup failure is the only classification-based short-circuit. -/
theorem C8_setupShortCircuit (oracle : String → Option (List Classification))
    (suiteList : List String) :
    ((∃ s ∈ SETUP_SUITE, ∃ outs, oracle s = Option.some outs ∧
        suiteFailFlag outs = true) →
      (runModel oracle false suiteList).1 = Option.some 1 ∧
      ∀ t ∈ (runModel oracle false suiteList).2, t ∈ SETUP_SUITE) ∧
    ((∀ s ∈ SETUP_SUITE, ∀ outs, oracle s = Option.some outs →
        suiteFailFlag outs = false) →
      (∀ s ∈ suiteList, SETUP_SUITE.contains s = false) →
      (runModel oracle false suiteList).1 = Option.none ∧
      (∀ s ∈ suiteList, (oracle s).isSome = true →
        s ∈ (runModel oracle false suiteList).2) ∧
      (∀ s ∈ TEARDOWN_SUITE, (oracle s).isSome = true →
        s ∈ (runModel oracle false suiteList).2)) := by
  constructor
  · intro hex
    have hall : ∀ s ∈ SETUP_SUITE, SETUP_SUITE.contains s = true := by
      intro s hs
      exact List.elem_eq_true_of_mem hs
    have h1 := runSuites_fail oracle SETUP_SUITE hall hex
    constructor
    · simp [runModel, h1]
    · intro t ht
      simp only [runModel, Bool.false_eq_true, if_false, h1, if_true] at ht
      exact runSuites_trace_subset oracle SETUP_SUITE t ht
  · intro hok hmain
    have hsetup : runSuites oracle SETUP_SUITE =
        (0, SETUP_SUITE.filter (fun s => (oracle s).isSome)) := by
      refine runSuites_no_fail oracle SETUP_SUITE ?_
      intro s hs outs ho
      rw [hok s hs outs ho]
      rfl
    have hmainrun : runSuites oracle suiteList =
        (0, suiteList.filter (fun s => (oracle s).isSome)) := by
      refine runSuites_no_fail oracle suiteList ?_
      intro s hs outs _
      rw [hmain s hs]
      exact Bool.and_false (suiteFailFlag outs)
    have htear : runSuites oracle TEARDOWN_SUITE =
        (0, TEARDOWN_SUITE.filter (fun s => (oracle s).isSome)) := by
      refine runSuites_no_fail oracle TEARDOWN_SUITE ?_
      intro s hs outs _
      have hdis : s = "TEARDOWN.sh" ∨ s = "TEARDOWN.py" ∨ s = "TEARDOWN.par" ∨
          s = "TEARDOWN.suite" := by
        simpa [TEARDOWN_SUITE] using hs
      have hc : SETUP_SUITE.contains s = false := by
        rcases hdis with rfl | rfl | rfl | rfl <;> decide
      rw [hc]
      exact Bool.and_false (suiteFailFlag outs)
    have hres : runModel oracle false suiteList =
        (Option.none,
          SETUP_SUITE.filter (fun s => (oracle s).isSome) ++
          suiteList.filter (fun s => (oracle s).isSome) ++
          TEARDOWN_SUITE.filter (fun s => (oracle s).isSome)) := by
      simp [runModel, hsetup, hmainrun, htear]
    refine ⟨by rw [hres], ?_, ?_⟩
    · intro s hs hsome
      rw [hres]
      simp only [List.mem_append]
      exact Or.inl (Or.inr (List.mem_filter.mpr ⟨hs, hsome⟩))
    · intro s hs hsome
      rw [hres]
      simp only [List.mem_append]
      exact Or.inr (List.mem_filter.mpr ⟨hs, hsome⟩)

/-- Witness for `C8_setupShortCircuit`: `SETUP.sh` resolves to a suite
with one FAIL script; the main suite `m.suite` never runs. -/
theorem C8_setupShortCircuit_witness :
    (runModel oracleC8 false ["m.suite"]).1 = Option.some 1 ∧
    ∀ t ∈ (runModel oracleC8 false ["m.suite"]).2, t ∈ SETUP_SUITE :=
  (C8_setupShortCircuit oracleC8 ["m.suite"]).1
    ⟨"SETUP.sh", by decide, [Classification.FAIL], by decide, by decide⟩

/-- C9 (code bug): the `BaseScan` re-seeding resets the include visited
*list* but only adds to the include visited *set*, and line 195 of
`lib/scanscripts.py` resets a misspelled attribute instead of the exclude
visited set.  On `fsC9` (no cycles anywhere) a fresh scan of `a.suite`
or of `c.suite` succeeds, yet scanning `c.suite` on the instance that
already scanned `a.suite` starts from a seed whose include visited set
retains `a.suite` and `b.suite` and aborts with a spurious include-loop
error. -/
theorem C9_visitStateLeaks :
    c9FirstCall = Except.ok (["t.sh"],
      { incList := ["a.suite", "b.suite"], excList := [],
        incSet := ["a.suite", "b.suite"], excSet := [] }) ∧
    c9FreshCall = Except.ok (["t.sh"],
      { incList := ["c.suite", "b.suite"], excList := [],
        incSet := ["c.suite", "b.suite"], excSet := [] }) ∧
    (baseScanSeed (stateAfter c9FirstCall) "c.suite").incSet =
      ["a.suite", "b.suite", "c.suite"] ∧
    c9SecondCall = Except.error (ScanErr.includeLoop ["c.suite"] "b.suite") := by
  have h1 : c9FirstCall = Except.ok (["t.sh"],
      { incList := ["a.suite", "b.suite"], excList := [],
        incSet := ["a.suite", "b.suite"], excSet := [] }) := by
    simp [c9FirstCall, baseScanSuite, baseScanSeed, initState, fsC9,
      readSuiteFiles, processIncludes, processExcludes, fsLookup, setDiff,
      setUnion, addElem]
  refine ⟨h1, ?_, ?_, ?_⟩
  · simp [c9FreshCall, baseScanSuite, baseScanSeed, initState, fsC9,
      readSuiteFiles, processIncludes, processExcludes, fsLookup, setDiff,
      setUnion, addElem]
  · rw [h1]
    simp [stateAfter, baseScanSeed, addElem]
  · rw [show c9SecondCall =
        baseScanSuite fsC9 10 (stateAfter c9FirstCall) "c.suite" from rfl, h1]
    simp [stateAfter, baseScanSuite, baseScanSeed, fsC9,
      readSuiteFiles, processIncludes, processExcludes, fsLookup, setDiff,
      setUnion, addElem]

/-! ## C3: cycle detection and termination of `_ReadSuiteFiles` -/

theorem mem_addElem_self (s : List String) (x : String) : x ∈ addElem s x := by
  by_cases h : x ∈ s <;> simp [addElem, h]

theorem mem_addElem_of_mem (s : List String) (x y : String) (h : y ∈ s) :
    y ∈ addElem s x := by
  by_cases hx : x ∈ s <;> simp [addElem, hx, h]

theorem mem_of_mem_addElem (s : List String) (x y : String)
    (h : y ∈ addElem s x) : y ∈ s ∨ y = x := by
  by_cases hx : x ∈ s
  · simp only [addElem, hx, if_true] at h
    exact Or.inl h
  · simp only [addElem, hx, if_false] at h
    rcases List.mem_append.mp h with h1 | h1
    · exact Or.inl h1
    · exact Or.inr (List.mem_singleton.mp h1)

theorem stLE_refl (s : ScanState) : stLE s s :=
  ⟨fun _ h => h, fun _ h => h⟩

theorem stLE_trans {a b c : ScanState} (h1 : stLE a b) (h2 : stLE b c) :
    stLE a c :=
  ⟨fun x hx => h2.1 x (h1.1 x hx), fun x hx => h2.2 x (h1.2 x hx)⟩

theorem stLE_addInc (st : ScanState) (s : String) :
    stLE st { st with incList := st.incList ++ [s], incSet := addElem st.incSet s } :=
  ⟨fun x hx => mem_addElem_of_mem st.incSet s x hx, fun _ hx => hx⟩

theorem stLE_addExc (st : ScanState) (s : String) :
    stLE st { st with excList := st.excList ++ [s], excSet := addElem st.excSet s } :=
  ⟨fun _ hx => hx, fun x hx => mem_addElem_of_mem st.excSet s x hx⟩

theorem kindSet_mono {s t : ScanState} (h : stLE s t) (k : EdgeKind) (x : String)
    (hx : x ∈ kindSet s k) : x ∈ kindSet t k := by
  cases k with
  | inc => exact h.1 x hx
  | exc => exact h.2 x hx

theorem contains_false_iff (l : List String) (x : String) :
    l.contains x = false ↔ x ∉ l := by
  constructor
  · intro h hx
    have h2 : l.elem x = false := h
    rw [List.elem_eq_true_of_mem hx] at h2
    exact absurd h2 (by decide)
  · intro h
    cases hb : l.contains x with
    | false => rfl
    | true => exact absurd (List.mem_of_elem_eq_true hb) h

theorem length_filter_le_aux {α : Type} (p q : α → Bool)
    (h : ∀ a, q a = true → p a = true) :
    ∀ l : List α, (l.filter q).length ≤ (l.filter p).length := by
  intro l
  induction l with
  | nil => exact Nat.le_refl 0
  | cons a rest ih =>
    by_cases hq : q a = true
    · rw [List.filter_cons_of_pos hq, List.filter_cons_of_pos (h a hq)]
      exact Nat.succ_le_succ ih
    · rw [List.filter_cons_of_neg hq]
      by_cases hp : p a = true
      · rw [List.filter_cons_of_pos hp]
        exact Nat.le_succ_of_le ih
      · rw [List.filter_cons_of_neg hp]
        exact ih

theorem length_filter_lt_aux {α : Type} (p q : α → Bool)
    (h : ∀ a, q a = true → p a = true) (a : α)
    (hpa : p a = true) (hqa : q a = false) :
    ∀ l : List α, a ∈ l → (l.filter q).length < (l.filter p).length := by
  intro l
  induction l with
  | nil => intro ha; exact absurd ha (List.not_mem_nil a)
  | cons b rest ih =>
    intro ha
    by_cases hqb : q b = true
    · rw [List.filter_cons_of_pos hqb, List.filter_cons_of_pos (h b hqb)]
      have hab : a ≠ b := fun hc => by rw [hc, hqb] at hqa; cases hqa
      have ha' : a ∈ rest := by
        rcases List.mem_cons.mp ha with h1 | h1
        · exact absurd h1 hab
        · exact h1
      exact Nat.succ_lt_succ (ih ha')
    · rw [List.filter_cons_of_neg hqb]
      by_cases hpb : p b = true
      · rw [List.filter_cons_of_pos hpb]
        exact Nat.lt_succ_of_le (length_filter_le_aux p q h rest)
      · rw [List.filter_cons_of_neg hpb]
        have hab : a ≠ b := fun hc => hpb (hc ▸ hpa)
        have ha' : a ∈ rest := by
          rcases List.mem_cons.mp ha with h1 | h1
          · exact absurd h1 hab
          · exact h1
        exact ih ha'

theorem setDiff_length_le (d : List String) {s t : List String}
    (h : ∀ x, x ∈ s → x ∈ t) :
    (setDiff d t).length ≤ (setDiff d s).length := by
  refine length_filter_le_aux _ _ ?_ d
  intro a ha
  rw [Bool.not_eq_true'] at ha ⊢
  rw [contains_false_iff] at ha ⊢
  exact fun hc => ha (h a hc)

theorem measure_le_of_stLE (fs : FS) {s t : ScanState} (h : stLE s t) :
    measureState fs t ≤ measureState fs s :=
  Nat.add_le_add (setDiff_length_le (domList fs) h.1)
    (setDiff_length_le (domList fs) h.2)

theorem setDiff_length_lt (d : List String) (s : List String) (a : String)
    (had : a ∈ d) (has : a ∉ s) :
    (setDiff d (addElem s a)).length < (setDiff d s).length := by
  refine length_filter_lt_aux _ _ ?_ a ?_ ?_ d had
  · intro x hx
    rw [Bool.not_eq_true'] at hx ⊢
    rw [contains_false_iff] at hx ⊢
    exact fun hc => hx (mem_addElem_of_mem s a x hc)
  · rw [Bool.not_eq_true', contains_false_iff]
    exact has
  · rw [Bool.not_eq_false']
    exact List.elem_eq_true_of_mem (mem_addElem_self s a)

theorem measure_decreases_inc (fs : FS) (st : ScanState) (s : String)
    (hs : s ∈ domList fs) (hns : s ∉ st.incSet) :
    measureState fs
      { st with incList := st.incList ++ [s], incSet := addElem st.incSet s } <
      measureState fs st := by
  have h1 := setDiff_length_lt (domList fs) st.incSet s hs hns
  exact Nat.add_lt_add_of_lt_of_le h1 (Nat.le_refl _)

theorem measure_decreases_exc (fs : FS) (st : ScanState) (s : String)
    (hs : s ∈ domList fs) (hns : s ∉ st.excSet) :
    measureState fs
      { st with excList := st.excList ++ [s], excSet := addElem st.excSet s } <
      measureState fs st := by
  have h1 := setDiff_length_lt (domList fs) st.excSet s hs hns
  exact Nat.add_lt_add_of_le_of_lt (Nat.le_refl _) h1

theorem fsLookup_mem (fs : FS) (p : String) (c : SuiteContent)
    (h : fsLookup fs p = Option.some c) : (p, c) ∈ fs := by
  induction fs with
  | nil => simp [fsLookup] at h
  | cons qc rest ih =>
    rcases qc with ⟨q, c'⟩
    by_cases hq : q = p
    · simp only [fsLookup, hq, if_true] at h
      have hc := Option.some.inj h
      rw [← hq, ← hc]
      exact List.mem_cons_self _ _
    · simp only [fsLookup, hq, if_false] at h
      exact List.mem_cons_of_mem _ (ih h)

theorem fsLookup_some_of_mem_dom (fs : FS) (p : String)
    (h : p ∈ domList fs) : ∃ c, fsLookup fs p = Option.some c := by
  have h1 : p ∈ fs.map Prod.fst := List.mem_dedup.mp h
  induction fs with
  | nil => simp at h1
  | cons qc rest ih =>
    by_cases hq : qc.1 = p
    · exact ⟨qc.2, by simp [fsLookup, hq]⟩
    · have h2 : p ∈ rest.map Prod.fst := by
        rcases List.mem_cons.mp h1 with h3 | h3
        · exact absurd h3.symm hq
        · exact h3
      rcases ih (List.mem_dedup.mpr h2) h2 with ⟨c, hc⟩
      exact ⟨c, by simp [fsLookup, hq, hc]⟩

theorem edge_lookup_some (fs : FS) (k : EdgeKind) (a b : String)
    (h : edge fs k a b) : ∃ c, fsLookup fs a = Option.some c := by
  rcases hl : fsLookup fs a with _ | c
  · rw [edge, effSuites, hl] at h
    exact absurd h (List.not_mem_nil b)
  · exact ⟨c, rfl⟩

theorem mem_setDiff_left {a b : List String} {x : String}
    (h : x ∈ setDiff a b) : x ∈ a :=
  (List.mem_filter.mp h).1

/-- The recursion only ever grows the visit sets (for the function and
both of its loops). -/
theorem scan_mono_all (fs : FS) : ∀ fuel : Nat,
    (∀ st path tcs st',
      readSuiteFiles fs fuel st path = Except.ok (tcs, st') → stLE st st') ∧
    (∀ (l : List String) st acc tcs st',
      processIncludes fs fuel st l acc = Except.ok (tcs, st') → stLE st st') ∧
    (∀ (l : List String) st acc tcs st',
      processExcludes fs fuel st l acc = Except.ok (tcs, st') → stLE st st') := by
  intro fuel
  induction fuel with
  | zero =>
    refine ⟨?_, ?_, ?_⟩
    · intro st path tcs st' h
      simp [readSuiteFiles] at h
    · intro l st acc tcs st' h
      cases l with
      | nil =>
        simp only [processIncludes] at h
        have h2 : st = st' := congrArg Prod.snd (Except.ok.inj h)
        rw [← h2]
        exact stLE_refl st
      | cons s rest =>
        simp only [processIncludes] at h
        by_cases hm : s ∈ st.incSet
        · rw [if_pos hm] at h
          exact absurd h (by simp)
        · rw [if_neg hm] at h
          rw [show readSuiteFiles fs 0
              { st with incList := st.incList ++ [s],
                        incSet := addElem st.incSet s } s =
              Except.error ScanErr.outOfFuel from by simp [readSuiteFiles]] at h
          exact absurd h (by simp)
    · intro l st acc tcs st' h
      cases l with
      | nil =>
        simp only [processExcludes] at h
        have h2 : st = st' := congrArg Prod.snd (Except.ok.inj h)
        rw [← h2]
        exact stLE_refl st
      | cons s rest =>
        simp only [processExcludes] at h
        by_cases hm : s ∈ st.excSet
        · rw [if_pos hm] at h
          exact absurd h (by simp)
        · rw [if_neg hm] at h
          rw [show readSuiteFiles fs 0
              { st with excList := st.excList ++ [s],
                        excSet := addElem st.excSet s } s =
              Except.error ScanErr.outOfFuel from by simp [readSuiteFiles]] at h
          exact absurd h (by simp)
  | succ f ih =>
    obtain ⟨_, ihpi, ihpe⟩ := ih
    have hread : ∀ st path tcs st',
        readSuiteFiles fs (f + 1) st path = Except.ok (tcs, st') → stLE st st' := by
      intro st path tcs st' h
      simp only [readSuiteFiles] at h
      cases hl : fsLookup fs path with
      | none => rw [hl] at h; exact absurd h (by simp)
      | some c =>
        rw [hl] at h
        dsimp only at h
        cases hpi : processIncludes fs f st
            (setDiff c.incSuites.dedup c.excSuites.dedup)
            (setDiff c.incTc.dedup c.excTc.dedup) with
        | error e => rw [hpi] at h; exact absurd h (by simp)
        | ok p =>
          rcases p with ⟨acc1, st1⟩
          rw [hpi] at h
          dsimp only at h
          exact stLE_trans (ihpi _ _ _ _ _ hpi) (ihpe _ _ _ _ _ h)
    have hpi : ∀ (l : List String) st acc tcs st',
        processIncludes fs (f + 1) st l acc = Except.ok (tcs, st') → stLE st st' := by
      intro l
      induction l with
      | nil =>
        intro st acc tcs st' h
        simp only [processIncludes] at h
        have h2 : st = st' := congrArg Prod.snd (Except.ok.inj h)
        rw [← h2]
        exact stLE_refl st
      | cons s rest ihl =>
        intro st acc tcs st' h
        simp only [processIncludes] at h
        by_cases hm : s ∈ st.incSet
        · rw [if_pos hm] at h
          exact absurd h (by simp)
        · rw [if_neg hm] at h
          cases hr : readSuiteFiles fs (f + 1)
              { st with incList := st.incList ++ [s],
                        incSet := addElem st.incSet s } s with
          | error e => rw [hr] at h; exact absurd h (by simp)
          | ok p =>
            rcases p with ⟨extra, st2⟩
            rw [hr] at h
            dsimp only at h
            exact stLE_trans (stLE_trans (stLE_addInc st s) (hread _ _ _ _ hr))
              (ihl st2 (setUnion acc extra) tcs st' h)
    have hpe : ∀ (l : List String) st acc tcs st',
        processExcludes fs (f + 1) st l acc = Except.ok (tcs, st') → stLE st st' := by
      intro l
      induction l with
      | nil =>
        intro st acc tcs st' h
        simp only [processExcludes] at h
        have h2 : st = st' := congrArg Prod.snd (Except.ok.inj h)
        rw [← h2]
        exact stLE_refl st
      | cons s rest ihl =>
        intro st acc tcs st' h
        simp only [processExcludes] at h
        by_cases hm : s ∈ st.excSet
        · rw [if_pos hm] at h
          exact absurd h (by simp)
        · rw [if_neg hm] at h
          cases hr : readSuiteFiles fs (f + 1)
              { st with excList := st.excList ++ [s],
                        excSet := addElem st.excSet s } s with
          | error e => rw [hr] at h; exact absurd h (by simp)
          | ok p =>
            rcases p with ⟨extra, st2⟩
            rw [hr] at h
            dsimp only at h
            exact stLE_trans (stLE_trans (stLE_addExc st s) (hread _ _ _ _ hr))
              (ihl st2 (setDiff acc extra) tcs st' h)
    exact ⟨hread, hpi, hpe⟩

/-- Termination and error discipline: on a well-formed filesystem, with
fuel exceeding the number of not-yet-visited suites, the resolver ends
in a resolved set or a cycle error — it never runs out of fuel and never
hits a missing file. -/
theorem scan_total_read (fs : FS) (hwf : wfFS fs) : ∀ fuel : Nat,
    ∀ st path, path ∈ domList fs → measureState fs st < fuel →
      terminatesProperly (readSuiteFiles fs fuel st path) := by
  intro fuel
  induction fuel with
  | zero => intro st path _ hm; exact absurd hm (Nat.not_lt_zero _)
  | succ f ihr =>
    have hpi : ∀ (l : List String) st acc,
        (∀ s ∈ l, s ∈ domList fs) → measureState fs st ≤ f →
        terminatesProperly (processIncludes fs f st l acc) := by
      intro l
      induction l with
      | nil =>
        intro st acc _ _
        simp [processIncludes, terminatesProperly]
      | cons s rest ihl =>
        intro st acc hdom hle
        simp only [processIncludes]
        by_cases hm : s ∈ st.incSet
        · rw [if_pos hm]
          simp [terminatesProperly]
        · rw [if_neg hm]
          have hsd : s ∈ domList fs := hdom s (List.mem_cons_self s rest)
          have hlt := measure_decreases_inc fs st s hsd hm
          have hread := ihr _ s hsd (lt_of_lt_of_le hlt hle)
          cases hres : readSuiteFiles fs f
              { st with incList := st.incList ++ [s],
                        incSet := addElem st.incSet s } s with
          | error e =>
            dsimp only
            rw [hres] at hread
            exact hread
          | ok p =>
            rcases p with ⟨extra, st2⟩
            dsimp only
            have hmono := (scan_mono_all fs f).1 _ s extra st2 hres
            have hle2 : measureState fs st2 ≤ f :=
              le_trans (measure_le_of_stLE fs hmono)
                (le_of_lt (lt_of_lt_of_le hlt hle))
            exact ihl st2 (setUnion acc extra)
              (fun x hx => hdom x (List.mem_cons_of_mem s hx)) hle2
    have hpe : ∀ (l : List String) st acc,
        (∀ s ∈ l, s ∈ domList fs) → measureState fs st ≤ f →
        terminatesProperly (processExcludes fs f st l acc) := by
      intro l
      induction l with
      | nil =>
        intro st acc _ _
        simp [processExcludes, terminatesProperly]
      | cons s rest ihl =>
        intro st acc hdom hle
        simp only [processExcludes]
        by_cases hm : s ∈ st.excSet
        · rw [if_pos hm]
          simp [terminatesProperly]
        · rw [if_neg hm]
          have hsd : s ∈ domList fs := hdom s (List.mem_cons_self s rest)
          have hlt := measure_decreases_exc fs st s hsd hm
          have hread := ihr _ s hsd (lt_of_lt_of_le hlt hle)
          cases hres : readSuiteFiles fs f
              { st with excList := st.excList ++ [s],
                        excSet := addElem st.excSet s } s with
          | error e =>
            dsimp only
            rw [hres] at hread
            exact hread
          | ok p =>
            rcases p with ⟨extra, st2⟩
            dsimp only
            have hmono := (scan_mono_all fs f).1 _ s extra st2 hres
            have hle2 : measureState fs st2 ≤ f :=
              le_trans (measure_le_of_stLE fs hmono)
                (le_of_lt (lt_of_lt_of_le hlt hle))
            exact ihl st2 (setDiff acc extra)
              (fun x hx => hdom x (List.mem_cons_of_mem s hx)) hle2
    intro st path hpd hm
    simp only [readSuiteFiles]
    rcases fsLookup_some_of_mem_dom fs path hpd with ⟨c, hl⟩
    rw [hl]
    dsimp only
    have hwfc := hwf (path, c) (fsLookup_mem fs path c hl)
    have hdomi : ∀ s ∈ setDiff c.incSuites.dedup c.excSuites.dedup,
        s ∈ domList fs :=
      fun s hs => hwfc.1 s (List.mem_dedup.mp (mem_setDiff_left hs))
    have hdome : ∀ s ∈ c.excSuites.dedup, s ∈ domList fs :=
      fun s hs => hwfc.2 s (List.mem_dedup.mp hs)
    have hle : measureState fs st ≤ f := Nat.lt_succ_iff.mp hm
    have h1 := hpi (setDiff c.incSuites.dedup c.excSuites.dedup) st
      (setDiff c.incTc.dedup c.excTc.dedup) hdomi hle
    cases hpires : processIncludes fs f st
        (setDiff c.incSuites.dedup c.excSuites.dedup)
        (setDiff c.incTc.dedup c.excTc.dedup) with
    | error e =>
      dsimp only
      rw [hpires] at h1
      exact h1
    | ok p =>
      rcases p with ⟨acc1, st1⟩
      dsimp only
      have hmono := (scan_mono_all fs f).2.1 _ st _ acc1 st1 hpires
      exact hpe c.excSuites.dedup st1 acc1 hdome
        (le_trans (measure_le_of_stLE fs hmono) hle)

/-- The include loop cannot succeed when some element of the remaining
list is already include-visited. -/
theorem hit_processIncludes (fs : FS) (fuel : Nat) (t : String) :
    ∀ (l : List String) (st : ScanState) (acc : List String), t ∈ l →
      t ∈ st.incSet → ∀ r, processIncludes fs fuel st l acc ≠ Except.ok r := by
  intro l
  induction l with
  | nil => intro st acc ht _ r _; exact absurd ht (List.not_mem_nil t)
  | cons s rest ih =>
    intro st acc ht hset r hok
    simp only [processIncludes] at hok
    by_cases hm : s ∈ st.incSet
    · rw [if_pos hm] at hok
      exact absurd hok (by simp)
    · rw [if_neg hm] at hok
      have hst : s ≠ t := fun hc => hm (hc ▸ hset)
      have htrest : t ∈ rest := by
        rcases List.mem_cons.mp ht with h1 | h1
        · exact absurd h1.symm hst
        · exact h1
      cases hr : readSuiteFiles fs fuel
          { st with incList := st.incList ++ [s],
                    incSet := addElem st.incSet s } s with
      | error e => rw [hr] at hok; exact absurd hok (by simp)
      | ok p =>
        rcases p with ⟨extra, st2⟩
        rw [hr] at hok
        dsimp only at hok
        have hmono := (scan_mono_all fs fuel).1 _ s extra st2 hr
        have hset2 : t ∈ st2.incSet :=
          hmono.1 t (mem_addElem_of_mem st.incSet s t hset)
        exact ih st2 (setUnion acc extra) htrest hset2 r hok

/-- The exclude loop cannot succeed when some element of the remaining
list is already exclude-visited. -/
theorem hit_processExcludes (fs : FS) (fuel : Nat) (t : String) :
    ∀ (l : List String) (st : ScanState) (acc : List String), t ∈ l →
      t ∈ st.excSet → ∀ r, processExcludes fs fuel st l acc ≠ Except.ok r := by
  intro l
  induction l with
  | nil => intro st acc ht _ r _; exact absurd ht (List.not_mem_nil t)
  | cons s rest ih =>
    intro st acc ht hset r hok
    simp only [processExcludes] at hok
    by_cases hm : s ∈ st.excSet
    · rw [if_pos hm] at hok
      exact absurd hok (by simp)
    · rw [if_neg hm] at hok
      have hst : s ≠ t := fun hc => hm (hc ▸ hset)
      have htrest : t ∈ rest := by
        rcases List.mem_cons.mp ht with h1 | h1
        · exact absurd h1.symm hst
        · exact h1
      cases hr : readSuiteFiles fs fuel
          { st with excList := st.excList ++ [s],
                    excSet := addElem st.excSet s } s with
      | error e => rw [hr] at hok; exact absurd hok (by simp)
      | ok p =>
        rcases p with ⟨extra, st2⟩
        rw [hr] at hok
        dsimp only at hok
        have hmono := (scan_mono_all fs fuel).1 _ s extra st2 hr
        have hset2 : t ∈ st2.excSet :=
          hmono.2 t (mem_addElem_of_mem st.excSet s t hset)
        exact ih st2 (setDiff acc extra) htrest hset2 r hok

/-- If visiting `b` can never succeed (under a monotone condition `P`),
an include loop whose list contains `b` cannot succeed either. -/
theorem bad_processIncludes (fs : FS) (fuel : Nat) (P : ScanState → Prop)
    (hP : ∀ s1 s2 : ScanState, stLE s1 s2 → P s1 → P s2) (b : String)
    (hb : ∀ st, P st → ∀ r, readSuiteFiles fs fuel st b ≠ Except.ok r) :
    ∀ (l : List String) (st : ScanState) (acc : List String), b ∈ l → P st →
      ∀ r, processIncludes fs fuel st l acc ≠ Except.ok r := by
  intro l
  induction l with
  | nil => intro st acc hbl _ r _; exact absurd hbl (List.not_mem_nil b)
  | cons s rest ih =>
    intro st acc hbl hp r hok
    simp only [processIncludes] at hok
    by_cases hm : s ∈ st.incSet
    · rw [if_pos hm] at hok
      exact absurd hok (by simp)
    · rw [if_neg hm] at hok
      have hp1 : P { st with incList := st.incList ++ [s], incSet := addElem st.incSet s } :=
        hP st _ (stLE_addInc st s) hp
      by_cases hsb : s = b
      · subst hsb
        cases hr : readSuiteFiles fs fuel
            { st with incList := st.incList ++ [s],
                      incSet := addElem st.incSet s } s with
        | error e => rw [hr] at hok; exact absurd hok (by simp)
        | ok p => exact absurd hr (hb _ hp1 p)
      · have hbrest : b ∈ rest := by
          rcases List.mem_cons.mp hbl with h1 | h1
          · exact absurd h1.symm hsb
          · exact h1
        cases hr : readSuiteFiles fs fuel
            { st with incList := st.incList ++ [s],
                      incSet := addElem st.incSet s } s with
        | error e => rw [hr] at hok; exact absurd hok (by simp)
        | ok p =>
          rcases p with ⟨extra, st2⟩
          rw [hr] at hok
          dsimp only at hok
          have hp2 : P st2 := hP _ st2 ((scan_mono_all fs fuel).1 _ _ _ _ hr) hp1
          exact ih st2 (setUnion acc extra) hbrest hp2 r hok

/-- If visiting `b` can never succeed (under a monotone condition `P`),
an exclude loop whose list contains `b` cannot succeed either. -/
theorem bad_processExcludes (fs : FS) (fuel : Nat) (P : ScanState → Prop)
    (hP : ∀ s1 s2 : ScanState, stLE s1 s2 → P s1 → P s2) (b : String)
    (hb : ∀ st, P st → ∀ r, readSuiteFiles fs fuel st b ≠ Except.ok r) :
    ∀ (l : List String) (st : ScanState) (acc : List String), b ∈ l → P st →
      ∀ r, processExcludes fs fuel st l acc ≠ Except.ok r := by
  intro l
  induction l with
  | nil => intro st acc hbl _ r _; exact absurd hbl (List.not_mem_nil b)
  | cons s rest ih =>
    intro st acc hbl hp r hok
    simp only [processExcludes] at hok
    by_cases hm : s ∈ st.excSet
    · rw [if_pos hm] at hok
      exact absurd hok (by simp)
    · rw [if_neg hm] at hok
      have hp1 : P { st with excList := st.excList ++ [s], excSet := addElem st.excSet s } :=
        hP st _ (stLE_addExc st s) hp
      by_cases hsb : s = b
      · subst hsb
        cases hr : readSuiteFiles fs fuel
            { st with excList := st.excList ++ [s],
                      excSet := addElem st.excSet s } s with
        | error e => rw [hr] at hok; exact absurd hok (by simp)
        | ok p => exact absurd hr (hb _ hp1 p)
      · have hbrest : b ∈ rest := by
          rcases List.mem_cons.mp hbl with h1 | h1
          · exact absurd h1.symm hsb
          · exact h1
        cases hr : readSuiteFiles fs fuel
            { st with excList := st.excList ++ [s],
                      excSet := addElem st.excSet s } s with
        | error e => rw [hr] at hok; exact absurd hok (by simp)
        | ok p =>
          rcases p with ⟨extra, st2⟩
          rw [hr] at hok
          dsimp only at hok
          have hp2 : P st2 := hP _ st2 ((scan_mono_all fs fuel).1 _ _ _ _ hr) hp1
          exact ih st2 (setDiff acc extra) hbrest hp2 r hok

/-- If a walk leads from `path` to a suite `u` having an edge to a suite
`t` already visited in that edge's namespace, resolution of `path` can
never succeed. -/
theorem scan_hot_not_ok (fs : FS) (t : String) (k : EdgeKind) :
    ∀ (path u : String), Walk fs path u → edge fs k u t →
      ∀ fuel st, t ∈ kindSet st k →
        ∀ r, readSuiteFiles fs fuel st path ≠ Except.ok r := by
  intro path u hw
  induction hw with
  | refl a =>
    intro he fuel st ht r hok
    cases fuel with
    | zero => simp [readSuiteFiles] at hok
    | succ f =>
      rcases edge_lookup_some fs k a t he with ⟨c, hl⟩
      simp only [readSuiteFiles, hl] at hok
      cases k with
      | inc =>
        have hel : t ∈ setDiff c.incSuites.dedup c.excSuites.dedup := by
          rw [edge, effSuites, hl] at he
          exact he
        cases hpi : processIncludes fs f st
            (setDiff c.incSuites.dedup c.excSuites.dedup)
            (setDiff c.incTc.dedup c.excTc.dedup) with
        | error e => rw [hpi] at hok; exact absurd hok (by simp)
        | ok p => exact absurd hpi (hit_processIncludes fs f t _ st _ hel ht p)
      | exc =>
        have hel : t ∈ c.excSuites.dedup := by
          rw [edge, effSuites, hl] at he
          exact he
        cases hpi : processIncludes fs f st
            (setDiff c.incSuites.dedup c.excSuites.dedup)
            (setDiff c.incTc.dedup c.excTc.dedup) with
        | error e => rw [hpi] at hok; exact absurd hok (by simp)
        | ok p =>
          rcases p with ⟨acc1, st1⟩
          rw [hpi] at hok
          dsimp only at hok
          have ht1 : t ∈ st1.excSet :=
            ((scan_mono_all fs f).2.1 _ _ _ _ _ hpi).2 t ht
          exact hit_processExcludes fs f t _ st1 acc1 hel ht1 r hok
  | @step a b u2 k1 hedge hwalk ih =>
    intro he fuel st ht r hok
    cases fuel with
    | zero => simp [readSuiteFiles] at hok
    | succ f =>
      rcases edge_lookup_some fs k1 a b hedge with ⟨c0, hl⟩
      simp only [readSuiteFiles, hl] at hok
      have hbbad : ∀ st', t ∈ kindSet st' k →
          ∀ r', readSuiteFiles fs f st' b ≠ Except.ok r' :=
        fun st' hP r' => ih he f st' hP r'
      cases k1 with
      | inc =>
        have hbl : b ∈ setDiff c0.incSuites.dedup c0.excSuites.dedup := by
          rw [edge, effSuites, hl] at hedge
          exact hedge
        cases hpi : processIncludes fs f st
            (setDiff c0.incSuites.dedup c0.excSuites.dedup)
            (setDiff c0.incTc.dedup c0.excTc.dedup) with
        | error e => rw [hpi] at hok; exact absurd hok (by simp)
        | ok p =>
          exact absurd hpi (bad_processIncludes fs f (fun s => t ∈ kindSet s k)
            (fun s1 s2 hle hp => kindSet_mono hle k t hp) b hbbad _ st _ hbl ht p)
      | exc =>
        have hbl : b ∈ c0.excSuites.dedup := by
          rw [edge, effSuites, hl] at hedge
          exact hedge
        cases hpi : processIncludes fs f st
            (setDiff c0.incSuites.dedup c0.excSuites.dedup)
            (setDiff c0.incTc.dedup c0.excTc.dedup) with
        | error e => rw [hpi] at hok; exact absurd hok (by simp)
        | ok p =>
          rcases p with ⟨acc1, st1⟩
          rw [hpi] at hok
          dsimp only at hok
          have ht1 : t ∈ kindSet st1 k :=
            kindSet_mono ((scan_mono_all fs f).2.1 _ _ _ _ _ hpi) k t ht
          exact bad_processExcludes fs f (fun s => t ∈ kindSet s k)
            (fun s1 s2 hle hp => kindSet_mono hle k t hp) b hbbad
            _ st1 acc1 hbl ht1 r hok

/-- An exclude loop whose list contains the target `t` of a back edge
`u → t` with `t` walking back to `u` cannot succeed: reaching `t` either
trips the visited check or recurses into `t` with `t` freshly
exclude-visited, where the back edge trips `scan_hot_not_ok`. -/
theorem cyc_processExcludes (fs : FS) (fuel : Nat) (u t : String)
    (hut : edge fs EdgeKind.exc u t) (htu : Walk fs t u) :
    ∀ (l : List String) (st : ScanState) (acc : List String), t ∈ l →
      ∀ r, processExcludes fs fuel st l acc ≠ Except.ok r := by
  intro l
  induction l with
  | nil => intro st acc ht r _; exact absurd ht (List.not_mem_nil t)
  | cons s rest ih =>
    intro st acc ht r hok
    simp only [processExcludes] at hok
    by_cases hm : s ∈ st.excSet
    · rw [if_pos hm] at hok
      exact absurd hok (by simp)
    · rw [if_neg hm] at hok
      by_cases hst : s = t
      · subst hst
        cases hr : readSuiteFiles fs fuel
            { st with excList := st.excList ++ [s],
                      excSet := addElem st.excSet s } s with
        | error e => rw [hr] at hok; exact absurd hok (by simp)
        | ok p =>
          have hts : s ∈ kindSet
              { st with excList := st.excList ++ [s],
                        excSet := addElem st.excSet s } EdgeKind.exc :=
            mem_addElem_self st.excSet s
          exact absurd hr
            (scan_hot_not_ok fs s EdgeKind.exc s u htu hut fuel _ hts p)
      · have htrest : t ∈ rest := by
          rcases List.mem_cons.mp ht with h1 | h1
          · exact absurd h1.symm hst
          · exact h1
        cases hr : readSuiteFiles fs fuel
            { st with excList := st.excList ++ [s],
                      excSet := addElem st.excSet s } s with
        | error e => rw [hr] at hok; exact absurd hok (by simp)
        | ok p =>
          rcases p with ⟨extra, st2⟩
          rw [hr] at hok
          dsimp only at hok
          exact ih st2 (setDiff acc extra) htrest r hok

/-- If a walk leads from `path` to a suite `u` that exclude-references a
suite `t` which in turn walks back to `u`, resolution of `path` can
never succeed. -/
theorem scan_excSelf_not_ok (fs : FS) (t : String) :
    ∀ (path u : String), Walk fs path u →
      edge fs EdgeKind.exc u t → Walk fs t u →
      ∀ fuel st r, readSuiteFiles fs fuel st path ≠ Except.ok r := by
  intro path u hw
  induction hw with
  | refl a =>
    intro hut htu fuel st r hok
    cases fuel with
    | zero => simp [readSuiteFiles] at hok
    | succ f =>
      rcases edge_lookup_some fs EdgeKind.exc a t hut with ⟨c, hl⟩
      simp only [readSuiteFiles, hl] at hok
      have hel : t ∈ c.excSuites.dedup := by
        have he2 := hut
        rw [edge, effSuites, hl] at he2
        exact he2
      cases hpi : processIncludes fs f st
          (setDiff c.incSuites.dedup c.excSuites.dedup)
          (setDiff c.incTc.dedup c.excTc.dedup) with
      | error e => rw [hpi] at hok; exact absurd hok (by simp)
      | ok p =>
        rcases p with ⟨acc1, st1⟩
        rw [hpi] at hok
        dsimp only at hok
        exact cyc_processExcludes fs f a t hut htu
          c.excSuites.dedup st1 acc1 hel r hok
  | @step a b u2 k1 hedge hwalk ih =>
    intro hut htu fuel st r hok
    cases fuel with
    | zero => simp [readSuiteFiles] at hok
    | succ f =>
      rcases edge_lookup_some fs k1 a b hedge with ⟨c0, hl⟩
      simp only [readSuiteFiles, hl] at hok
      have hbbad : ∀ st', (fun _ : ScanState => True) st' →
          ∀ r', readSuiteFiles fs f st' b ≠ Except.ok r' :=
        fun st' _ r' => ih hut htu f st' r'
      cases k1 with
      | inc =>
        have hbl : b ∈ setDiff c0.incSuites.dedup c0.excSuites.dedup := by
          have he2 := hedge
          rw [edge, effSuites, hl] at he2
          exact he2
        cases hpi : processIncludes fs f st
            (setDiff c0.incSuites.dedup c0.excSuites.dedup)
            (setDiff c0.incTc.dedup c0.excTc.dedup) with
        | error e => rw [hpi] at hok; exact absurd hok (by simp)
        | ok p =>
          exact absurd hpi (bad_processIncludes fs f (fun _ => True)
            (fun _ _ _ _ => trivial) b hbbad _ st _ hbl trivial p)
      | exc =>
        have hbl : b ∈ c0.excSuites.dedup := by
          have he2 := hedge
          rw [edge, effSuites, hl] at he2
          exact he2
        cases hpi : processIncludes fs f st
            (setDiff c0.incSuites.dedup c0.excSuites.dedup)
            (setDiff c0.incTc.dedup c0.excTc.dedup) with
        | error e => rw [hpi] at hok; exact absurd hok (by simp)
        | ok p =>
          rcases p with ⟨acc1, st1⟩
          rw [hpi] at hok
          dsimp only at hok
          exact bad_processExcludes fs f (fun _ => True)
            (fun _ _ _ _ => trivial) b hbbad _ st1 acc1 hbl trivial r hok

/-- C3: a suite file that directly or transitively references itself
through the include or exclude chains makes `BaseScan` fail with one of
the two loop errors (naming the visit chain), and the recursion
terminates: any fuel beyond the number of unvisited suites yields that
same loop error, never fuel exhaustion. -/
theorem C3_cycleTermination (fs : FS) (A : String) (hwf : wfFS fs)
    (hdom : A ∈ domList fs)
    (hcyc : ∃ u k, Walk fs A u ∧ edge fs k u A)
    (fuel : Nat) (hfuel : measureState fs (baseScanSeed initState A) < fuel) :
    isLoopError (baseScanSuite fs fuel initState A) := by
  have hterm := scan_total_read fs hwf fuel (baseScanSeed initState A) A hdom hfuel
  have hnotok : ∀ r, readSuiteFiles fs fuel (baseScanSeed initState A) A ≠
      Except.ok r := by
    rcases hcyc with ⟨u, k, hw, he⟩
    cases k with
    | inc =>
      intro r
      refine scan_hot_not_ok fs A EdgeKind.inc A u hw he fuel _ ?_ r
      exact mem_addElem_self initState.incSet A
    | exc =>
      intro r
      exact scan_excSelf_not_ok fs A A u hw he hw fuel _ r
  rw [show baseScanSuite fs fuel initState A =
      readSuiteFiles fs fuel (baseScanSeed initState A) A from rfl]
  cases hres : readSuiteFiles fs fuel (baseScanSeed initState A) A with
  | ok r => exact absurd hres (hnotok r)
  | error e =>
    rw [hres] at hterm
    cases e with
    | includeLoop v s => simp [isLoopError]
    | excludeLoop v s => simp [isLoopError]
    | ioErr p =>
      simp [terminatesProperly] at hterm
    | outOfFuel =>
      simp [terminatesProperly] at hterm

/-- Witness for `C3_cycleTermination`: a suite file that includes
itself. -/
theorem C3_cycleTermination_witness :
    wfFS fsSelf ∧ "a.suite" ∈ domList fsSelf ∧
    measureState fsSelf (baseScanSeed initState "a.suite") < 3 ∧
    isLoopError (baseScanSuite fsSelf 3 initState "a.suite") := by
  have hwf : wfFS fsSelf := by
    intro pc hpc
    rcases List.mem_singleton.mp hpc with rfl
    exact ⟨by decide, by decide⟩
  have hedge : edge fsSelf EdgeKind.inc "a.suite" "a.suite" := by
    show "a.suite" ∈ effSuites fsSelf EdgeKind.inc "a.suite"
    decide
  refine ⟨hwf, by decide, by decide, ?_⟩
  exact C3_cycleTermination fsSelf "a.suite" hwf (by decide)
    ⟨"a.suite", EdgeKind.inc, Walk.refl "a.suite", hedge⟩ 3 (by decide)

end PyreRing
